import Mathlib

/-!
Shallow embedding of `unf_events_to_ics.py` (UNF-Aktivite-Web-Scraper).

The Python program logs into a volunteer-events portal, crawls paginated
per-location event listings, extracts event records from HTML (a table
layout or a pipe-delimited text layout), deduplicates them across pages,
and emits one RFC 5545 calendar file per location.

This file models, from the source:
  - the text normalizers `norm_time`, `norm_date`, `to_int`
    (with the behaviour of `dateutil.parser.parse(..., dayfirst=True)`
    and of glibc `strftime` modelled where the program calls into them),
  - the HTML record extractor `parse_table` / `parse_pipe_lines` /
    `attach_urls_by_title` over a small HTML document model,
  - the pagination walker `crawl_location` with its visited set,
  - the ICS encoder pieces: `fold_ical_line` (UTF-8 byte chunking with
    a decode that drops undecodable bytes, as Python
    `bytes.decode("utf-8", errors="ignore")` does on slices of valid
    UTF-8), `ics_escape`, `parse_dt_local`, `uid_for` (SHA-1), and the
    per-event line list of `rows_to_ics`.

Machine integers are modelled as `Nat` with explicit `% 2 ^ 32` in the
SHA-1 rounds.  Strings are Lean `String`s (lists of unicode characters),
and UTF-8 byte strings are `List Nat`.
-/

/-- Whether the character list `n` occurs as a contiguous sublist of `h`
(model of the Python substring test `n in h`). -/
def listContainsSub (n h : List Char) : Bool :=
  match h with
  | [] => n.isEmpty
  | _ :: t => n.isPrefixOf h || listContainsSub n t

/-- Python `n in h` on strings: substring containment. -/
def strContainsSub (n h : String) : Bool :=
  listContainsSub n.data h.data

/-- Python `str.strip()` (whitespace from both ends).  Python strips all
unicode whitespace; the site text only ever carries ASCII whitespace, so
`Char.isWhitespace` (space, tab, CR, LF) is used. -/
def pyStrip (s : String) : String :=
  String.mk (((s.data.dropWhile Char.isWhitespace).reverse.dropWhile
    Char.isWhitespace).reverse)

/-- Digit-by-digit worker for decimal formatting, structurally
recursive on a fuel argument so that it evaluates in the kernel. -/
def natDigitsGo : Nat → Nat → List Char → List Char
  | 0, _, acc => acc
  | fuel + 1, n, acc =>
    if n < 10 then Char.ofNat (48 + n) :: acc
    else natDigitsGo fuel (n / 10) (Char.ofNat (48 + n % 10) :: acc)

/-- Decimal digits of a natural number, most significant first
(model of Python decimal formatting of a nonnegative int). -/
def natDigits (n : Nat) : List Char :=
  natDigitsGo (n + 1) n []

/-- Decimal string of a natural number. -/
def natStr (n : Nat) : String :=
  String.mk (natDigits n)

/-- Two-digit zero padding, as the `%m`/`%d`/`%H`/`%M` strftime
directives produce for values below 100. -/
def pad2 (n : Nat) : String :=
  if n < 10 then "0" ++ natStr n else natStr n

/-- Numeric value of a decimal digit character. -/
def digVal (c : Char) : Nat := c.toNat - 48

/-- Model of the regex search for `(\d{1,2}):(\d{2})` (Python
`re.search`): leftmost match, greedy on the first group.  Returns the
first group as characters together with the two groups as numbers. -/
def timeTry2 (l : List Char) : Option (List Char × Nat × Nat) :=
  match l with
  | a :: b :: c :: x :: y :: _ =>
    if a.isDigit && b.isDigit && c == ':' && x.isDigit && y.isDigit then
      some ([a, b], (10 * digVal a + digVal b, 10 * digVal x + digVal y))
    else none
  | _ => none

/-- One-digit-hour attempt of the `(\d{1,2}):(\d{2})` match. -/
def timeTry1 (l : List Char) : Option (List Char × Nat × Nat) :=
  match l with
  | a :: c :: x :: y :: _ =>
    if a.isDigit && c == ':' && x.isDigit && y.isDigit then
      some ([a], (digVal a, 10 * digVal x + digVal y))
    else none
  | _ => none

/-- `re.search(r"(\d{1,2}):(\d{2})", s)`: try each start position from
the left; at a position prefer the two-digit hour (greedy `{1,2}`). -/
def timeSearch (l : List Char) : Option (List Char × Nat × Nat) :=
  match l with
  | [] => none
  | _ :: t =>
    match timeTry2 l with
    | some r => some r
    | none =>
      match timeTry1 l with
      | some r => some r
      | none => timeSearch t

/-- `norm_time` from the source:
```
def norm_time(s: str) -> str:
    if not s: return ""
    m = re.search(r"(\d{1,2}):(\d{2})", str(s))
    return m.group(1) if m else str(s).strip()
```
Note that the source returns `m.group(1)` (the hour digits only), not
`m.group(0)`. -/
def norm_time (s : String) : String :=
  if s = "" then ""
  else
    match timeSearch s.data with
    | some (g1, _, _) => String.mk g1
    | none => pyStrip s

/-- Extend a digit run to the left-accumulated value. -/
def digitRunVal (acc : Nat) : List Char → Nat
  | [] => acc
  | c :: t => if c.isDigit then digitRunVal (10 * acc + digVal c) t else acc

/-- First run of consecutive decimal digits in a character list,
with its value (model of `re.search(r"\d+", s)` plus `int`). -/
def firstDigitRun : List Char → Option Nat
  | [] => none
  | c :: t =>
    if c.isDigit then
      some (digitRunVal (digVal c) t)
    else firstDigitRun t

/-- `to_int` from the source (the `s is None` guard of the source is
unreachable from its call sites, which always pass strings):
```
def to_int(s) -> int:
    if s is None: return 0
    m = re.search(r"\d+", str(s))
    return int(m.group(0)) if m else 0
``` -/
def to_int (s : String) : Nat :=
  match firstDigitRun s.data with
  | some v => v
  | none => 0

/-- Consume a leading run of decimal digits: value, digit count, rest. -/
def takeDigits : List Char → Nat → Nat → Nat × Nat × List Char
  | [], v, n => (v, n, [])
  | c :: t, v, n =>
    if c.isDigit then takeDigits t (10 * v + digVal c) (n + 1)
    else (v, n, c :: t)

/-- Days in a month of the proleptic Gregorian calendar, as Python
`datetime.date` validates them. -/
def daysInMonth (y m : Nat) : Nat :=
  if m = 2 then
    if y % 4 = 0 && (y % 100 != 0 || y % 400 = 0) then 29 else 28
  else if m = 4 || m = 6 || m = 9 || m = 11 then 30
  else 31

/-- Python `datetime.datetime(y, m, d)` validity
(`MINYEAR = 1`, `MAXYEAR = 9999`). -/
def validDate (y m d : Nat) : Bool :=
  1 ≤ y && y ≤ 9999 && 1 ≤ m && m ≤ 12 && 1 ≤ d && d ≤ daysInMonth y m

/-- The year `dateutil` treats as "today" when converting two-digit
years (fixed here to the year of a 2025 run of the scraper). -/
def dateutilTodayYear : Nat := 2025

/-- `parserinfo.convertyear`: a two-digit year without an explicit
century is moved into the century window within 50 years of today. -/
def convertyear (y : Nat) (centurySpecified : Bool) : Nat :=
  if y < 100 && !centurySpecified then
    if 2000 + y ≥ dateutilTodayYear + 50 then 1900 + y else 2000 + y
  else y

/-- Split a string of the exact shape `D1 sep D2 sep D3` (each `Di` a
run of one to four decimal digits, each `sep` a dash or slash) into the
three (value, digit count) groups.  This is the tokenized shape that
`dateutil`'s lexer produces for the numeric dates this program feeds to
`dateutil.parser.parse` (the output of `norm_date` and the raw Danish
`DD-MM-YYYY` cells); anything else is outside the modelled domain and
is mapped to a parse failure. -/
def threeNumberGroups (l : List Char) : Option ((Nat × Nat) × (Nat × Nat) × (Nat × Nat)) :=
  match takeDigits l 0 0 with
  | (v1, n1, r1) =>
    if n1 = 0 || n1 > 4 then none
    else
      match r1 with
      | s1 :: r2 =>
        if s1 == '-' || s1 == '/' then
          match takeDigits r2 0 0 with
          | (v2, n2, r3) =>
            if n2 = 0 || n2 > 4 then none
            else
              match r3 with
              | s2 :: r4 =>
                if s2 == '-' || s2 == '/' then
                  match takeDigits r4 0 0 with
                  | (v3, n3, r5) =>
                    if n3 = 0 || n3 > 4 then none
                    else if r5.isEmpty then some ((v1, n1), (v2, n2), (v3, n3))
                    else none
                else none
              | [] => none
        else none
      | [] => none

/-- `_ymd.resolve_ymd` of `dateutil` for three plain numbers with
`dayfirst=True`, `yearfirst=False` and no month name: the branch
structure is translated from `dateutil/parser/_parser.py`.  `ystr0` says
whether the first group carried an explicit century (more than two
digits), which labels it as the year. -/
def resolveYmdDayfirst (a b c : Nat) (ystr0 : Bool) : Nat × Nat × Nat :=
  if a > 31 || ystr0 then
    if c ≤ 12 then (a, c, b) else (a, b, c)
  else if a > 12 || b ≤ 12 then (c, b, a)
  else (c, a, b)

/-- Model of `dateutil.parser.parse(s, dayfirst=True, fuzzy=True)`
restricted to the numeric `D-D-D` / `D/D/D` shapes this program
produces and the claims exercise; returns `(year, month, day)` of the
parsed date or `none` for a parse failure (a raised exception).  Two
groups of more than two digits make `dateutil` raise ("Year is already
set"), hence `none`. -/
def dateutil_parse_dayfirst (s : String) : Option (Nat × Nat × Nat) :=
  match threeNumberGroups s.data with
  | none => none
  | some ((v1, n1), (v2, n2), (v3, n3)) =>
    if (if n1 > 2 then 1 else 0) + (if n2 > 2 then 1 else 0)
        + (if n3 > 2 then 1 else 0) ≥ 2 then none
    else
      let century := n1 > 2 || n2 > 2 || n3 > 2
      let (y0, m, d) := resolveYmdDayfirst v1 v2 v3 (n1 > 2)
      let y := convertyear y0 century
      if validDate y m d then some (y, m, d) else none

/-- glibc `strftime("%Y-%m-%d")`: month and day are zero-padded to two
digits, the year is printed unpadded (four digits only when at least
1000). -/
def fmtDateIso (y m d : Nat) : String :=
  natStr y ++ "-" ++ pad2 m ++ "-" ++ pad2 d

/-- `norm_date` from the source:
```
def norm_date(s: str) -> str:
    if not s: return ""
    try:
        dt = dateparser.parse(str(s), dayfirst=True, fuzzy=True)
        return dt.strftime("%Y-%m-%d")
    except Exception:
        return ""
``` -/
def norm_date (s : String) : String :=
  if s = "" then ""
  else
    match dateutil_parse_dayfirst s with
    | some (y, m, d) => fmtDateIso y m d
    | none => ""

/-- Does a string have the exact shape `YYYY-MM-DD` (four digits, dash,
two digits, dash, two digits)? -/
def isIsoDateShape (s : String) : Bool :=
  match s.data with
  | [a, b, c, d, e, f, g, h, i, j] =>
    a.isDigit && b.isDigit && c.isDigit && d.isDigit && e == '-'
      && f.isDigit && g.isDigit && h == '-' && i.isDigit && j.isDigit
  | _ => false

/-- Lowercase one character (ASCII range). -/
def lowerChar (c : Char) : Char :=
  if 65 ≤ c.toNat && c.toNat ≤ 90 then Char.ofNat (c.toNat + 32) else c

/-- Python `str.lower()`.  Python lowercasing is unicode-aware; the
keyword and key comparisons in the source only involve ASCII letters,
so ASCII lowering is used. -/
def pyLower (s : String) : String := String.mk (s.data.map lowerChar)

/-- Prefix test on strings at the character level. -/
def strIsPrefix (p s : String) : Bool := p.data.isPrefixOf s.data

/-- The site base URL (`BASE` in the source). -/
def BASE : String := "https://frivillig.unf.dk"

/-- Model of `urljoin(BASE, href)` for the href shapes the site serves:
an absolute URL is kept, an absolute path is attached to the host, and
a relative path is attached below the root. -/
def urljoinBase (href : String) : String :=
  if strIsPrefix "http://" href || strIsPrefix "https://" href then href
  else if strIsPrefix "/" href then BASE ++ href
  else BASE ++ "/" ++ href

/-- `absolutize` from the source:
```
def absolutize(href: str) -> str | None:
    return urljoin(BASE, href) if href else None
``` -/
def absolutize (href : String) : Option String :=
  if href = "" then none else some (urljoinBase href)

/-- Kind of a table cell element: `<th>` or `<td>`. -/
inductive CellKind where
  | th : CellKind
  | td : CellKind
deriving DecidableEq, Repr

/-- A table cell of the HTML model.  `text` is
`cell.get_text(" ", strip=True)`; `link` is the first `<a href=...>`
descendant, as `(raw href attribute, anchor get_text)`; `classes` is
the `class` token list of the cell element. -/
structure Cell where
  kind : CellKind
  text : String
  link : Option (String × String)
  classes : List String
deriving DecidableEq, Repr

/-- A `<tr>` of the HTML model, with its cells in document order and
its `class` token list. -/
structure Tr where
  cells : List Cell
  classes : List String
deriving DecidableEq, Repr

/-- A `<table>` of the HTML model. -/
structure Table where
  rows : List Tr
deriving DecidableEq, Repr

/-- An `<a>` element outside the table model, as used by
`attach_urls_by_title` and `find_next_page`: the raw href attribute
(`none` when the attribute is absent), the visible text, whether the
`rel` attribute contains "next", and whether the element matches the
CSS selector `.pagination .next a, a.next`. -/
structure Anchor where
  href : Option String
  text : String
  relNext : Bool
  pagNext : Bool
deriving DecidableEq, Repr

/-- A parsed page (`BeautifulSoup` document): its tables, its text
nodes (`soup.find_all(string=True)`, in document order), and its
anchors in document order. -/
structure Soup where
  tables : List Table
  textNodes : List String
  anchors : List Anchor
deriving DecidableEq, Repr

/-- An extracted event record, i.e. one dict built by the extractor
(keys `Navn`, `Dato`, `Klokkeslæt`, `Vagter`, `Reserverede`, `URL`). -/
structure Record where
  navn : String
  dato : String
  klok : String
  vagter : Nat
  reserverede : Nat
  url : String
deriving DecidableEq, Repr

/-- The `<td>` cells of a row (`tr.find_all("td")`). -/
def tdsOf (tr : Tr) : List Cell :=
  tr.cells.filter (fun c => c.kind == CellKind.td)

/-- The `<th>` cells of a table in document order
(`table.find_all("th")`). -/
def thsOf (t : Table) : List Cell :=
  t.rows.flatMap (fun tr => tr.cells.filter (fun c => c.kind == CellKind.th))

/-- Header cells of a table: the `<th>` cells, or, when there are none,
the `<td>` cells of the first `<tr>` (`table.find("tr")`). -/
def headCellsOf (t : Table) : List Cell :=
  let ths := thsOf t
  if ths.isEmpty then
    match t.rows.head? with
    | some tr0 => tdsOf tr0
    | none => []
  else ths

/-- The keyword guard of `parse_table`: at least two of the keywords
must occur as substrings of the space-joined lowercased header. -/
def headerHits (hl : List String) : Nat :=
  let joined := " ".intercalate hl
  (["navn", "dato", "klokkesl", "tid", "vagter", "reserverede"].filter
    (fun kw => strContainsSub kw joined)).length

/-- `idx_of` from `parse_table`: the index in the lowercased header of
the first keyword present (exact cell match), as an `Option` for the
source's `-1` sentinel combined with its `0 <= idx < len` guards. -/
def idx_of (hl : List String) : List String → Option Nat
  | [] => none
  | k :: ks => if hl.contains k then some (hl.indexOf k) else idx_of hl ks

/-- The first `<a href=...>` anywhere in a row
(`tr.find("a", href=True)`), scanning cells in document order. -/
def rowFirstLink (tr : Tr) : Option (String × String) :=
  tr.cells.findSome? (fun c => c.link)

/-- The per-row body of `parse_table`: given the resolved column
indices, build the record dict appended for a `<tr>`; `none` when the
row has no `<td>` cells (`if not tds: continue`). -/
def rowRecord (idxNavn idxDato idxTid idxVagt idxRes : Option Nat)
    (tr : Tr) : Option Record :=
  let tds := tdsOf tr
  if tds.isEmpty then none
  else
    let cellsText := tds.map (fun c => c.text)
    let navnTd : Option (Nat × Cell) :=
      idxNavn.bind (fun i => (tds[i]?).map (fun cell => (i, cell)))
    let urlTitle : Option String × String :=
      match navnTd with
      | some (i, cell) =>
        match cell.link with
        | some (href, atext) => ((absolutize href), atext)
        | none => (none, cellsText.getD i "")
      | none =>
        match rowFirstLink tr with
        | some (href, atext) => ((absolutize href), atext)
        | none => (none, cellsText.headD "")
    let dato := match idxDato with
      | some i => cellsText.getD i ""
      | none => ""
    let tid := match idxTid with
      | some i => cellsText.getD i ""
      | none => ""
    let vagt := match idxVagt with
      | some i => cellsText.getD i ""
      | none => ""
    let res := match idxRes with
      | some i => cellsText.getD i ""
      | none => ""
    some {
      navn := pyStrip urlTitle.2
      dato := norm_date dato
      klok := norm_time tid
      vagter := to_int vagt
      reserverede := to_int res
      url := pyStrip ((urlTitle.1).getD "") }

/-- `parse_table` restricted to one table element: derive the header,
apply the keyword guard, resolve column indices, and process every
`<tr>` that has `<td>` cells — including, when the table had no `<th>`
cells, the first row that the header was read from. -/
def parseTableOne (t : Table) : List Record :=
  let header := (headCellsOf t).map (fun c => c.text)
  let hl := header.map pyLower
  if header.isEmpty then []
  else if headerHits hl < 2 then []
  else
    let idxNavn := idx_of hl ["navn", "titel", "title"]
    let idxDato := idx_of hl ["dato", "date"]
    let idxTid := idx_of hl ["klokkeslæt", "klokkeslaet", "tid", "time"]
    let idxVagt := idx_of hl ["vagter", "vagt"]
    let idxRes := idx_of hl ["reserverede", "deltagere", "tilmeldte"]
    t.rows.filterMap (rowRecord idxNavn idxDato idxTid idxVagt idxRes)

/-- `parse_table` from the source: records accumulated over all tables
of the page. -/
def parse_table (soup : Soup) : List Record :=
  soup.tables.flatMap parseTableOne

/-- Split a character list at every pipe character
(Python `s.split("|")`): the empty string splits to one empty cell. -/
def splitOnPipe : List Char → List (List Char)
  | [] => [[]]
  | c :: t =>
    if c = '|' then [] :: splitOnPipe t
    else
      match splitOnPipe t with
      | h :: r => (c :: h) :: r
      | [] => [[c]]

/-- Cells of a pipe-delimited line:
`[c.strip() for c in re.sub(r"\s*\|\s*", "|", s).split("|")]` —
normalizing whitespace around pipes and then stripping each piece is
the same as splitting on the pipes and stripping each piece. -/
def pipeCells (s : String) : List String :=
  (splitOnPipe s.data).map (fun cs => pyStrip (String.mk cs))

/-- The fixed canonical header order (`ORDER` in the source). -/
def ORDER : List String :=
  ["Navn", "Dato", "Ugedag", "Klokkeslæt", "Vagter", "Reserverede",
   "Pladser", "Deltagere", "Ekstern/Intern"]

/-- Python `dict(zip(keys, vals)).get(k, "")`: with duplicate keys the
last pair wins, so look the key up from the right. -/
def dictGet (pairs : List (String × String)) (k : String) : String :=
  match pairs.reverse.find? (fun p => p.1 == k) with
  | some p => p.2
  | none => ""

/-- The qualifying text nodes of `parse_pipe_lines`: stripped text
nodes that contain a pipe and are longer than 10 characters. -/
def pipeTexts (soup : Soup) : List String :=
  soup.textNodes.filterMap (fun n =>
    let s := pyStrip n
    if strContainsSub "|" s && s.data.length > 10 then some s else none)

/-- The header row of `parse_pipe_lines`: the first qualifying line
with at least 5 cells whose first cell is "navn" (case-insensitive). -/
def pipeHeader (texts : List String) : Option (List String) :=
  match texts.find? (fun s =>
      let cells := pipeCells s
      cells.length ≥ 5 && pyLower (cells.headD "") == "navn") with
  | some s => some (pipeCells s)
  | none => none

/-- `parse_values` from `parse_pipe_lines`: split a line into cells,
skip short lines and lines matching the header signature, and zip the
cells with the found header (truncated to the cell count) or, without
a header, with the fixed `ORDER` after right-padding the cells. -/
def parse_values (header : Option (List String)) (line : String) :
    Option (List (String × String)) :=
  let cells := pipeCells line
  if cells.length < 2 || pyLower (cells.headD "") == "navn" then none
  else
    match header with
    | some hd => some ((hd.take cells.length).zip cells)
    | none =>
      let padded :=
        if cells.length < ORDER.length then
          cells ++ List.replicate (ORDER.length - cells.length) ""
        else cells
      some (ORDER.zip (padded.take ORDER.length))

/-- The record dict built from one pipe-delimited line. -/
def pipeRecord (d : List (String × String)) : Record :=
  { navn := pyStrip (dictGet d "Navn")
    dato := norm_date (dictGet d "Dato")
    klok := norm_time (dictGet d "Klokkeslæt")
    vagter := to_int (dictGet d "Vagter")
    reserverede := to_int
      (if dictGet d "Reserverede" = "" then dictGet d "Deltagere"
       else dictGet d "Reserverede")
    url := "" }

/-- `parse_pipe_lines` from the source. -/
def parse_pipe_lines (soup : Soup) : List Record :=
  let texts := pipeTexts soup
  let header := pipeHeader texts
  texts.filterMap (fun s => (parse_values header s).map pipeRecord)

/-- The title-to-href index of `attach_urls_by_title`: for each anchor
with a nonempty text and an href whose absolutized form contains
"/events/", record `(lowercased text, absolute href)`; `setdefault`
keeps the first entry per title, so a lookup takes the first hit. -/
def titleHrefPairs (soup : Soup) : List (String × String) :=
  soup.anchors.filterMap (fun a =>
    match a.href with
    | none => none
    | some hrefRaw =>
      match absolutize hrefRaw with
      | none => none
      | some href =>
        if a.text ≠ "" && strContainsSub "/events/" href then
          some (pyLower a.text, href)
        else none)

/-- `attach_urls_by_title` from the source: fill in the URL of each
record that lacks one from the first matching `/events/` anchor whose
visible text equals the record title (case-insensitive). -/
def attach_urls_by_title (items : List Record) (soup : Soup) : List Record :=
  let pairs := titleHrefPairs soup
  items.map (fun it =>
    if it.url = "" then
      match pairs.find? (fun p => p.1 == pyLower it.navn) with
      | some p => { it with url := p.2 }
      | none => it
    else it)

/-- The localized next-page labels tried by `find_next_page`. -/
def nextLabels : List String := ["Næste", "Naeste", "Next", "›", ">>"]

/-- The label loop of `find_next_page`, then the CSS-selector fallback
(`.pagination .next a, a.next`). -/
def findNextByLabel (soup : Soup) : List String → Option String
  | txt :: rest =>
    match soup.anchors.find? (fun a =>
        a.text ≠ "" && strContainsSub (pyLower txt) (pyLower a.text)) with
    | some a =>
      match a.href with
      | some h => absolutize h
      | none => findNextByLabel soup rest
    | none => findNextByLabel soup rest
  | [] =>
    match soup.anchors.find? (fun a => a.pagNext) with
    | some a =>
      match a.href with
      | some h => absolutize h
      | none => none
    | none => none

/-- `find_next_page` from the source: first an anchor whose `rel`
contains "next"; then the first anchor whose text contains one of the
localized labels (case-insensitive), label by label; finally a
pagination-next element by CSS selector.  In each stage an anchor
without an href attribute falls through to the next stage. -/
def find_next_page (soup : Soup) : Option String :=
  match soup.anchors.find? (fun a => a.relNext) with
  | some a =>
    match a.href with
    | some h => absolutize h
    | none => findNextByLabel soup nextLabels
  | none => findNextByLabel soup nextLabels

/-- The deduplication key of `crawl_location`:
`(x.get("URL"), x.get("Navn","").lower())`. -/
def rkey (r : Record) : String × String :=
  (r.url, pyLower r.navn)

/-- The per-page merge step of `crawl_location`: the set of keys
already present is computed once from the accumulated rows, then every
batch item whose key is not in that set is appended (in batch order).
The key set is NOT updated while the batch is appended. -/
def mergeDedup (rows batch : List Record) : List Record :=
  let existing := rows.map rkey
  rows ++ batch.filter (fun it => !(existing.contains (rkey it)))

/-- The per-page extraction of `crawl_location`: `parse_table`, and if
it yields nothing, `parse_pipe_lines` followed by the URL backfill. -/
def extractRecords (soup : Soup) : List Record :=
  let batch := parse_table soup
  if batch.isEmpty then
    let batch2 := parse_pipe_lines soup
    if batch2.isEmpty then batch2 else attach_urls_by_title batch2 soup
  else batch

/-- The `while` loop of `crawl_location`, with the fetch behaviour
abstracted as a function `fetch : String → Option Soup` (the source is
always called with such a `fetch` by the orchestrator; `None` models a
fetch error or a non-200 response, which aborts the walk).  Returns the
accumulated rows together with the number of fetch calls performed.
The loop continues while the URL is present, not yet visited, and the
visited set is smaller than `maxPages`; the inter-page sleep has no
observable effect here and is not modelled. -/
def crawlGo (fetch : String → Option Soup) (maxPages : Nat) :
    Option String → List String → List Record → List Record × Nat
  | none, _, rows => (rows, 0)
  | some u, seen, rows =>
    if h : seen.contains u || maxPages ≤ seen.length then (rows, 0)
    else
      match fetch u with
      | none => (rows, 1)
      | some soup =>
        let rows2 := mergeDedup rows (extractRecords soup)
        let rec1 := crawlGo fetch maxPages (find_next_page soup) (u :: seen) rows2
        (rec1.1, rec1.2 + 1)
termination_by url seen _ => maxPages - seen.length
decreasing_by
  simp only [Bool.or_eq_true, decide_eq_true_eq, not_or] at h
  simp only [List.length_cons]
  omega

/-- `crawl_location` from the source (fetch-function path), returning
the accumulated record list and the number of fetch calls. -/
def crawl_location (fetch : String → Option Soup) (startUrl : String)
    (maxPages : Nat) : List Record × Nat :=
  crawlGo fetch maxPages (some startUrl) [] []

/-- UTF-8 encoding of one character (`str.encode("utf-8")`
per code point). -/
def charUtf8 (c : Char) : List Nat :=
  if c.toNat < 128 then [c.toNat]
  else if c.toNat < 2048 then [192 + c.toNat / 64, 128 + c.toNat % 64]
  else if c.toNat < 65536 then
    [224 + c.toNat / 4096, 128 + (c.toNat / 64) % 64, 128 + c.toNat % 64]
  else
    [240 + c.toNat / 262144, 128 + (c.toNat / 4096) % 64,
     128 + (c.toNat / 64) % 64, 128 + c.toNat % 64]

/-- UTF-8 encoding of a character list. -/
def utf8Encode (l : List Char) : List Nat :=
  l.flatMap charUtf8

/-- UTF-8 byte length of a string. -/
def utf8Len (s : String) : Nat :=
  (utf8Encode s.data).length

/-- Is a byte a UTF-8 continuation byte (`0x80..0xBF`)? -/
def isCont (b : Nat) : Bool := 128 ≤ b && b ≤ 191

/-- Model of Python `bytes.decode("utf-8", errors="ignore")`,
structurally recursive on a fuel argument (one unit per lead byte).
A valid sequence is decoded; an invalid lead or orphan continuation
byte is dropped; a sequence truncated by the end of the input is
dropped.  The second-byte range checks (overlong forms, surrogates)
follow the UTF-8 validation CPython performs.  On the inputs this
program produces — slices of valid UTF-8 — this agrees with CPython
byte for byte. -/
def decodeIgnoreGo : Nat → List Nat → List Char
  | 0, _ => []
  | _, [] => []
  | fuel + 1, b1 :: rest =>
    if b1 < 128 then Char.ofNat b1 :: decodeIgnoreGo fuel rest
    else if 194 ≤ b1 && b1 ≤ 223 then
      match rest with
      | b2 :: r2 =>
        if isCont b2 then
          Char.ofNat ((b1 - 192) * 64 + (b2 - 128)) :: decodeIgnoreGo fuel r2
        else decodeIgnoreGo fuel rest
      | [] => []
    else if 224 ≤ b1 && b1 ≤ 239 then
      match rest with
      | b2 :: r2 =>
        if (if b1 = 224 then 160 ≤ b2 && b2 ≤ 191
            else if b1 = 237 then 128 ≤ b2 && b2 ≤ 159
            else isCont b2) then
          match r2 with
          | b3 :: r3 =>
            if isCont b3 then
              Char.ofNat ((b1 - 224) * 4096 + (b2 - 128) * 64 + (b3 - 128))
                :: decodeIgnoreGo fuel r3
            else decodeIgnoreGo fuel rest
          | [] => []
        else decodeIgnoreGo fuel rest
      | [] => []
    else if 240 ≤ b1 && b1 ≤ 244 then
      match rest with
      | b2 :: r2 =>
        if (if b1 = 240 then 144 ≤ b2 && b2 ≤ 191
            else if b1 = 244 then 128 ≤ b2 && b2 ≤ 143
            else isCont b2) then
          match r2 with
          | b3 :: r3 =>
            if isCont b3 then
              match r3 with
              | b4 :: r4 =>
                if isCont b4 then
                  Char.ofNat ((b1 - 240) * 262144 + (b2 - 128) * 4096
                      + (b3 - 128) * 64 + (b4 - 128))
                    :: decodeIgnoreGo fuel r4
                else decodeIgnoreGo fuel rest
              | [] => []
            else decodeIgnoreGo fuel rest
          | [] => []
        else decodeIgnoreGo fuel rest
      | [] => []
    else decodeIgnoreGo fuel rest

/-- `bytes.decode("utf-8", errors="ignore")` as a character list. -/
def decodeIgnore (bs : List Nat) : List Char :=
  decodeIgnoreGo bs.length bs

/-- Cut a list into consecutive chunks of `k` elements (the last chunk
may be shorter), structurally recursive on a fuel argument. -/
def chunksGo {α : Type} (k : Nat) : Nat → List α → List (List α)
  | _, [] => []
  | 0, l => [l]
  | fuel + 1, l => l.take k :: chunksGo k fuel (l.drop k)

/-- The 75-byte chunks of the `while` loop of `fold_ical_line`. -/
def foldChunks (raw : List Nat) : List (List Nat) :=
  chunksGo 75 raw.length raw

/-- The decoded chunks of `fold_ical_line` for a line: encode the line
as UTF-8, slice it at 75-byte boundaries, and decode each slice with
errors ignored. -/
def foldChunksDecoded (line : String) : List (List Char) :=
  (foldChunks (utf8Encode line.data)).map decodeIgnore

/-- The physical output lines produced by `fold_ical_line`: the first
decoded chunk, and each later decoded chunk prefixed with one space. -/
def foldParts (line : String) : List String :=
  match foldChunksDecoded line with
  | [] => []
  | k :: ks => String.mk k :: ks.map (fun ki => String.mk (' ' :: ki))

/-- Join chunk data with CRLF plus the continuation space, i.e.
`"\r\n".join(chunks)` where every chunk after the first already starts
with its space. -/
def foldJoinData : List (List Char) → List Char
  | [] => []
  | k :: ks => k ++ ks.flatMap (fun ki => '\r' :: '\n' :: ' ' :: ki)

/-- `fold_ical_line` from the source:
```
def fold_ical_line(line: str) -> str:
    raw = line.encode("utf-8"); chunks = []; start = 0; limit = 75
    while start < len(raw):
        end = min(start + limit, len(raw))
        chunk = raw[start:end].decode("utf-8", errors="ignore")
        chunks.append(chunk if start == 0 else " " + chunk)
        start = end
    return "\r\n".join(chunks)
``` -/
def fold_ical_line (line : String) : String :=
  String.mk (foldJoinData (foldChunksDecoded line))

/-- Unfolding: delete every CRLF that is followed by one space
(the inverse reading of RFC 5545 folding used by the claims). -/
def unfoldData : List Char → List Char
  | [] => []
  | [c] => [c]
  | [c, d] => [c, d]
  | c :: d :: e :: t =>
    if c = '\r' ∧ d = '\n' ∧ e = ' ' then unfoldData t
    else c :: unfoldData (d :: e :: t)

/-- Unfolding on strings. -/
def unfoldIcal (s : String) : String :=
  String.mk (unfoldData s.data)

/-- One substitution stage of `ics_escape`: replace every occurrence
of the character `pat` by the replacement `rep`
(Python `str.replace` with a one-character pattern). -/
def escStage (pat : Char) (rep : List Char) (l : List Char) : List Char :=
  l.flatMap (fun c => if c = pat then rep else [c])

/-- `ics_escape` from the source: backslash, newline, comma, semicolon,
in that substitution order (the `text is None` guard is unreachable
from the call sites, which pass strings). -/
def ics_escape (s : String) : String :=
  String.mk (escStage ';' ['\\', ';'] (escStage ',' ['\\', ',']
    (escStage '\n' ['\\', 'n'] (escStage '\\' ['\\', '\\'] s.data))))

/-- A wall-clock datetime as the encoder uses it
(`datetime(y, m, d, hh, mm)`). -/
structure DateTime where
  y : Nat
  m : Nat
  d : Nat
  hh : Nat
  mm : Nat
deriving DecidableEq, Repr

/-- `parse_dt_local` from the source:
```
def parse_dt_local(date_str: str, time_str: str) -> datetime | None:
    if not date_str: return None
    try:
        d = dateparser.parse(date_str, dayfirst=True, fuzzy=True).date()
    except Exception:
        return None
    m = re.search(r"(\d{1,2}):(\d{2})", time_str or "")
    hh, mm = (int(m.group(1)), int(m.group(2))) if m else (18, 0)
    return datetime(d.year, d.month, d.day, hh, mm)
```
(The `datetime` constructor would raise an uncaught `ValueError` for an
hour above 23; such time strings occur in none of the claims and the
raise is not modelled.) -/
def parse_dt_local (dateStr timeStr : String) : Option DateTime :=
  if dateStr = "" then none
  else
    match dateutil_parse_dayfirst dateStr with
    | none => none
    | some (y, m, d) =>
      match timeSearch timeStr.data with
      | some (_, h, mi) => some ⟨y, m, d, h, mi⟩
      | none => some ⟨y, m, d, 18, 0⟩

/-- `start + timedelta(hours=2)` on a valid wall-clock datetime, with
day, month and year rollover as Python `datetime` arithmetic performs
it. -/
def addHours2 (t : DateTime) : DateTime :=
  if t.hh + 2 < 24 then { t with hh := t.hh + 2 }
  else
    let hh2 := t.hh + 2 - 24
    if t.d + 1 ≤ daysInMonth t.y t.m then { t with d := t.d + 1, hh := hh2 }
    else if t.m + 1 ≤ 12 then { t with m := t.m + 1, d := 1, hh := hh2 }
    else { y := t.y + 1, m := 1, d := 1, hh := hh2, mm := t.mm }

/-- `fmt_local`: `dt.strftime("%Y%m%dT%H%M%S")` with seconds always
zero (glibc strftime: `%Y` unpadded, the rest zero-padded to two). -/
def fmt_local (t : DateTime) : String :=
  natStr t.y ++ pad2 t.m ++ pad2 t.d ++ "T" ++ pad2 t.hh ++ pad2 t.mm ++ "00"

/-- Rotate a 32-bit word left by `n` bits. -/
def rotl32 (n x : Nat) : Nat :=
  ((x <<< n) % 2 ^ 32) + (x % 2 ^ 32) / 2 ^ (32 - n)

/-- SHA-1 working state. -/
structure Sha1State where
  a : Nat
  b : Nat
  c : Nat
  d : Nat
  e : Nat
deriving DecidableEq, Repr

/-- Big-endian bytes of a number, `k` bytes wide. -/
def beBytes (k n : Nat) : List Nat :=
  (List.range k).map (fun i => (n / 2 ^ (8 * (k - 1 - i))) % 256)

/-- Big-endian 32-bit word from four bytes. -/
def beWord (bs : List Nat) : Nat :=
  bs.foldl (fun a b => a * 256 + b) 0

/-- SHA-1 message padding: a `0x80` byte, zeros to 56 mod 64, then the
bit length as eight big-endian bytes. -/
def sha1Pad (msg : List Nat) : List Nat :=
  msg ++ 128 :: List.replicate ((119 - msg.length % 64) % 64) 0
      ++ beBytes 8 (msg.length * 8)

/-- Extend the sixteen message words of a block to eighty. -/
def sha1Extend (ws : List Nat) : List Nat :=
  (List.range 64).foldl (fun acc i =>
    acc ++ [rotl32 1 (Nat.xor (Nat.xor (acc.getD (i + 13) 0) (acc.getD (i + 8) 0))
      (Nat.xor (acc.getD (i + 2) 0) (acc.getD i 0)))]) ws

/-- The SHA-1 round function for round `t`. -/
def sha1F (t b c d : Nat) : Nat :=
  if t < 20 then Nat.lor (Nat.land b c) (Nat.land (2 ^ 32 - 1 - b % 2 ^ 32) d)
  else if t < 40 then Nat.xor (Nat.xor b c) d
  else if t < 60 then
    Nat.lor (Nat.lor (Nat.land b c) (Nat.land b d)) (Nat.land c d)
  else Nat.xor (Nat.xor b c) d

/-- The SHA-1 round constant for round `t`. -/
def sha1K (t : Nat) : Nat :=
  if t < 20 then 1518500249
  else if t < 40 then 1859775393
  else if t < 60 then 2400959708
  else 3395469782

/-- Process one 64-byte block. -/
def sha1Block (h : Sha1State) (block : List Nat) : Sha1State :=
  let ws := sha1Extend ((chunksGo 4 block.length block).map beWord)
  let f := (List.range 80).foldl (fun (st : Sha1State) t =>
    let tmp := (rotl32 5 st.a + sha1F t st.b st.c st.d + st.e + sha1K t
      + ws.getD t 0) % 2 ^ 32
    { a := tmp, b := st.a, c := rotl32 30 st.b, d := st.c, e := st.d }) h
  { a := (h.a + f.a) % 2 ^ 32, b := (h.b + f.b) % 2 ^ 32,
    c := (h.c + f.c) % 2 ^ 32, d := (h.d + f.d) % 2 ^ 32,
    e := (h.e + f.e) % 2 ^ 32 }

/-- SHA-1 digest bytes of a byte string (`hashlib.sha1(...).digest()`). -/
def sha1Bytes (msg : List Nat) : List Nat :=
  let padded := sha1Pad msg
  let final := (chunksGo 64 padded.length padded).foldl sha1Block
    { a := 1732584193, b := 4023233417, c := 2562383102,
      d := 271733878, e := 3285377520 }
  beBytes 4 final.a ++ beBytes 4 final.b ++ beBytes 4 final.c
    ++ beBytes 4 final.d ++ beBytes 4 final.e

/-- Lowercase hex digit. -/
def hexDigit (n : Nat) : Char :=
  if n < 10 then Char.ofNat (48 + n) else Char.ofNat (87 + n)

/-- Lowercase hex string of a digest
(`hashlib.sha1(...).hexdigest()`). -/
def sha1Hex (msg : List Nat) : String :=
  String.mk ((sha1Bytes msg).flatMap (fun b => [hexDigit (b / 16), hexDigit (b % 16)]))

/-- `uid_for` from the source:
```
def uid_for(it: dict, slug: str) -> str:
    key = (slug + "|" + it.get("URL","") + "|" + it.get("Navn","") + "|"
        + it.get("Dato","") + "|" + it.get("Klokkeslæt","")).encode("utf-8")
    return "unf-" + hashlib.sha1(key).hexdigest() + "@unf"
``` -/
def uid_for (it : Record) (slug : String) : String :=
  "unf-" ++ sha1Hex (utf8Encode
    (slug ++ "|" ++ it.url ++ "|" ++ it.navn ++ "|" ++ it.dato ++ "|"
      ++ it.klok).data) ++ "@unf"

/-- The description parts of an event (`desc` in `rows_to_ics`). -/
def descParts (it : Record) : List String :=
  ["Vagter: " ++ natStr it.vagter, "Reserverede: " ++ natStr it.reserverede]
    ++ (if it.url ≠ "" then ["URL: " ++ it.url] else [])

/-- The `DESCRIPTION` value: each part escaped, joined with a literal
backslash-n. -/
def descriptionOf (it : Record) : String :=
  "\\n".intercalate ((descParts it).map ics_escape)

/-- The per-event lines of `rows_to_ics` (the list `evt` in the
source), before folding, for a record whose start time `st` was
already computed by `parse_dt_local`. -/
def rows_to_ics_event (it : Record) (calname now : String)
    (st : DateTime) : List String :=
  ["BEGIN:VEVENT",
   "UID:" ++ uid_for it calname,
   "DTSTAMP:" ++ now,
   "DTSTART;TZID=Europe/Copenhagen:" ++ fmt_local st,
   "DTEND;TZID=Europe/Copenhagen:" ++ fmt_local (addHours2 st)]
  ++ ["SUMMARY:" ++ ics_escape it.navn]
  ++ (if it.url ≠ "" then ["URL:" ++ ics_escape it.url] else [])
  ++ (if descriptionOf it ≠ "" then ["DESCRIPTION:" ++ descriptionOf it] else [])
  ++ ["STATUS:CONFIRMED", "TRANSP:OPAQUE", "END:VEVENT"]

/-- The lines `rows_to_ics` emits for one record: none when
`parse_dt_local` fails (the record is silently skipped), otherwise the
`evt` list. -/
def eventLines (it : Record) (calname now : String) : List String :=
  match parse_dt_local it.dato it.klok with
  | none => []
  | some st => rows_to_ics_event it calname now st

/-- The fixed `VTIMEZONE` block (`VTIMEZONE_EUROPE_CPH.splitlines()`). -/
def vtimezoneLines : List String :=
  ["BEGIN:VTIMEZONE", "TZID:Europe/Copenhagen",
   "X-LIC-LOCATION:Europe/Copenhagen",
   "BEGIN:DAYLIGHT", "TZOFFSETFROM:+0100", "TZOFFSETTO:+0200",
   "TZNAME:CEST", "DTSTART:19700329T020000",
   "RRULE:FREQ=YEARLY;BYMONTH=3;BYDAY=-1SU", "END:DAYLIGHT",
   "BEGIN:STANDARD", "TZOFFSETFROM:+0200", "TZOFFSETTO:+0100",
   "TZNAME:CET", "DTSTART:19701025T030000",
   "RRULE:FREQ=YEARLY;BYMONTH=10;BYDAY=-1SU", "END:STANDARD",
   "END:VTIMEZONE"]

/-- All logical lines of the calendar document built by `rows_to_ics`
(per-event lines folded, header and footer as in the source). -/
def rows_to_ics_lines (rows : List Record) (calname now : String) :
    List String :=
  ["BEGIN:VCALENDAR", "PRODID:-//UNF Export//UNF Events to ICS//EN",
   "VERSION:2.0", "CALSCALE:GREGORIAN", "METHOD:PUBLISH",
   "X-WR-CALNAME:" ++ ics_escape calname,
   "X-WR-TIMEZONE:Europe/Copenhagen"]
  ++ vtimezoneLines
  ++ rows.flatMap (fun it => (eventLines it calname now).map fold_ical_line)
  ++ ["END:VCALENDAR"]

/-- Join physical lines with CRLF (`"\r\n".join(lines)`). -/
def joinCRLF : List String → String
  | [] => ""
  | [p] => p
  | p :: q :: rest => p ++ "\r\n" ++ joinCRLF (q :: rest)

/-- The full file content written by `rows_to_ics`:
`"\r\n".join(lines) + "\r\n"`. -/
def rows_to_ics_content (rows : List Record) (calname now : String) : String :=
  joinCRLF (rows_to_ics_lines rows calname now) ++ "\r\n"

/-- Number of records in a list whose deduplication key is `k`. -/
def countKey (l : List Record) (k : String × String) : Nat :=
  (l.filter (fun r => rkey r == k)).length

/-- Modelled from the spec: the cancellation condition described in the
specification — the union of the row's class tokens and the name
cell's class tokens contains, case-insensitively, a `rowExternal`
marker, a `danger` marker, and at least one `even`/`odd` zebra marker.
No corresponding code exists anywhere in the source: `parse_table`
never reads a `class` attribute and builds no cancellation flag. -/
def claimed_cancel_markers (rowClasses nameCellClasses : List String) : Bool :=
  let toks := (rowClasses ++ nameCellClasses).map pyLower
  toks.contains "rowexternal" && toks.contains "danger"
    && toks.any (fun t => strContainsSub "even" t || strContainsSub "odd" t)

/-- Replace the class token lists of every row (by `f`) and every cell
(by `g`) of a document, leaving all text, links and cell kinds
unchanged.  Used to state that the extractor ignores class tokens. -/
def soupMapClasses (f g : List String → List String) (s : Soup) : Soup :=
  { s with tables := s.tables.map (fun t =>
      { rows := t.rows.map (fun tr =>
          { cells := tr.cells.map (fun c => { c with classes := g c.classes })
            classes := f tr.classes }) }) }

/-- A table whose only data row carries exactly the class tokens of the
spec's cancellation condition (fixture for the cancellation claim). -/
def cancelFixtureRow : Tr :=
  { cells := [
      { kind := CellKind.td, text := "Fest", link := none, classes := ["rowExternal"] },
      { kind := CellKind.td, text := "10-06-2025", link := none, classes := [] },
      { kind := CellKind.td, text := "3", link := none, classes := [] }]
    classes := ["rowExternal", "danger", "footable-even"] }

/-- The fixture document containing `cancelFixtureRow` under a proper
`<th>` header naming two of the guard keywords. -/
def cancelFixtureSoup : Soup :=
  { tables := [
      { rows := [
          { cells := [
              { kind := CellKind.th, text := "Navn", link := none, classes := [] },
              { kind := CellKind.th, text := "Dato", link := none, classes := [] },
              { kind := CellKind.th, text := "Vagter", link := none, classes := [] }]
            classes := [] },
          cancelFixtureRow] }]
    textNodes := []
    anchors := [] }

/-- The record the extractor produces from `cancelFixtureRow`. -/
def cancelFixtureRec : Record :=
  { navn := "Fest", dato := "2025-06-10", klok := "", vagter := 3,
    reserverede := 0, url := "" }

/-- A headerless table (no `<th>` anywhere) whose first row holds the
column names as `<td>` cells (fixture for the header-row claim). -/
def headerlessRow0 : Tr :=
  { cells := [
      { kind := CellKind.td, text := "Navn", link := none, classes := [] },
      { kind := CellKind.td, text := "Dato", link := none, classes := [] },
      { kind := CellKind.td, text := "Klokkeslæt", link := none, classes := [] }]
    classes := [] }

/-- The data row of the headerless fixture table. -/
def headerlessRow1 : Tr :=
  { cells := [
      { kind := CellKind.td, text := "Koncert",
        link := some ("/events/kbh/7/", "Koncert"), classes := [] },
      { kind := CellKind.td, text := "24-12-2025", link := none, classes := [] },
      { kind := CellKind.td, text := "19:30", link := none, classes := [] }]
    classes := [] }

/-- The headerless fixture table. -/
def headerlessTable : Table :=
  { rows := [headerlessRow0, headerlessRow1] }

/-!  Theorems.  One theorem per claim of the specification review, with
helper lemmas as needed. -/

/-- C1: the claim says `norm_time` returns the first matched `H:MM` or
`HH:MM` token verbatim.  The code returns `m.group(1)` — only the hour
digits: on the failing input `"18:30"` it returns `"18"`, not
`"18:30"`.  (The other branches of the claim hold: no match gives the
trimmed input and empty input gives the empty string, evaluated here as
well.) -/
theorem C1_norm_time_returns_group1 :
    norm_time "18:30" = "18" ∧ norm_time "18:30" ≠ "18:30"
      ∧ norm_time "  hej  " = "hej" ∧ norm_time "" = "" := by
  decide

/-- C6: the claim says a record with date `2025-06-10` and time `18:30`
yields `DTSTART;TZID=Europe/Copenhagen:20250610T183000` and the DTEND
two hours later on the same day.  The code re-parses the ISO date with
`dayfirst=True`, and `dateutil` resolves `2025-06-10` as year-day-month
(October 6), so the emitted lines carry `20251006`, not `20250610`. -/
theorem C6_dtstart_code_eval :
    (eventLines ⟨"Fest", "2025-06-10", "18:30", 3, 2, ""⟩ "UNF KBH Events"
        "20250101T000000Z")[3]?
      = some "DTSTART;TZID=Europe/Copenhagen:20251006T183000"
    ∧ (eventLines ⟨"Fest", "2025-06-10", "18:30", 3, 2, ""⟩ "UNF KBH Events"
        "20250101T000000Z")[4]?
      = some "DTEND;TZID=Europe/Copenhagen:20251006T203000"
    ∧ ("DTSTART;TZID=Europe/Copenhagen:20251006T183000" : String)
      ≠ "DTSTART;TZID=Europe/Copenhagen:20250610T183000" := by
  decide

/-- C8 counterexample: on the input `"0005-12-25"` (a four-digit year
below 1000), `norm_date` returns `"5-12-25"` — neither a string
matching `YYYY-MM-DD` nor the empty string, because glibc `%Y` does not
zero-pad years below 1000. -/
theorem C8_norm_date_counterexample :
    norm_date "0005-12-25" = "5-12-25"
      ∧ isIsoDateShape (norm_date "0005-12-25") = false
      ∧ norm_date "0005-12-25" ≠ "" := by
  decide

set_option maxRecDepth 8000 in
/-- C3 counterexample: folding a 150-character ASCII line produces a
second physical line of 76 octets (the continuation space is not
counted against the 75-octet limit), and folding a line whose euro sign
straddles the 75-byte boundary drops the character (the bytes are
discarded by `errors="ignore"`), so unfolding does not reconstruct the
input. -/
theorem C3_fold_counterexample :
    (foldParts (String.mk (List.replicate 150 'a'))).map utf8Len = [75, 76]
      ∧ unfoldIcal (fold_ical_line (String.mk (List.replicate 74 'a' ++ ['€'])))
        ≠ String.mk (List.replicate 74 'a' ++ ['€']) := by
  decide

set_option maxRecDepth 8000 in
/-- C2 counterexample: a row carrying exactly the class tokens of the
spec's cancellation condition is extracted like any other row, and the
encoder still emits `STATUS:CONFIRMED` — `STATUS:CANCELLED` appears
nowhere in its event lines. -/
theorem C2_no_cancellation_counterexample :
    claimed_cancel_markers cancelFixtureRow.classes
        (((cancelFixtureRow.cells).headD
          { kind := CellKind.td, text := "", link := none, classes := [] }).classes)
      = true
    ∧ parse_table cancelFixtureSoup = [cancelFixtureRec]
    ∧ (eventLines cancelFixtureRec "UNF KBH Events" "20250101T000000Z")[7]?
      = some "STATUS:CONFIRMED"
    ∧ "STATUS:CANCELLED" ∉ eventLines cancelFixtureRec "UNF KBH Events"
        "20250101T000000Z" := by
  decide

/-- C7: `uid_for` is a deterministic function of exactly the calendar
name, URL, title, date and time of a record: two records agreeing on
those fields (the shift and reserve counts may differ) get the same
UID, on every run. -/
theorem C7_uid_deterministic (cal : String) (r1 r2 : Record)
    (hu : r1.url = r2.url) (hn : r1.navn = r2.navn)
    (hd : r1.dato = r2.dato) (hk : r1.klok = r2.klok) :
    uid_for r1 cal = uid_for r2 cal := by
  simp [uid_for, hu, hn, hd, hk]

/-- Witness for C7 at concrete records differing only in the counts. -/
theorem C7_uid_witness :
    uid_for ⟨"Fest", "2025-06-10", "18:30", 3, 2, "https://x/e/1"⟩ "UNF KBH Events"
      = uid_for ⟨"Fest", "2025-06-10", "18:30", 99, 7, "https://x/e/1"⟩ "UNF KBH Events" :=
  C7_uid_deterministic "UNF KBH Events" _ _ rfl rfl rfl rfl

theorem countKey_append (l1 l2 : List Record) (k : String × String) :
    countKey (l1 ++ l2) k = countKey l1 k + countKey l2 k := by
  simp [countKey, List.filter_append]

theorem countKey_eq_zero_iff (rows : List Record) (k : String × String) :
    countKey rows k = 0 ↔ ∀ r ∈ rows, rkey r ≠ k := by
  simp [countKey, List.length_eq_zero, List.filter_eq_nil_iff]

theorem contains_key_iff (rows : List Record) (k : String × String) :
    ((rows.map rkey).contains k) = true ↔ ∃ r ∈ rows, rkey r = k := by
  simp [List.contains_eq_any_beq, eq_comm]

theorem exists_key_of_countKey_pos (rows : List Record)
    (k : String × String) (h : 0 < countKey rows k) :
    ∃ r ∈ rows, rkey r = k := by
  unfold countKey at h
  rw [List.length_pos] at h
  obtain ⟨r, hr⟩ := List.exists_mem_of_ne_nil _ h
  refine ⟨r, List.mem_of_mem_filter hr, ?_⟩
  have := List.of_mem_filter hr
  simpa using this

/-- C4: the merge step of the pagination walker never adds a batch
record whose `(URL, lowercase title)` key is already present in the
accumulated rows, so a key held by exactly one accumulated record (from
an earlier page) is held by exactly one record after merging a later
page's batch, whatever that batch contains.  Record identity is exactly
the key `rkey`. -/
theorem C4_dedup_across_pages (rows batch : List Record)
    (k : String × String) (h : countKey rows k = 1) :
    countKey (mergeDedup rows batch) k = 1 := by
  unfold mergeDedup
  rw [countKey_append, h]
  have hz : countKey (batch.filter
      (fun it => !((rows.map rkey).contains (rkey it)))) k = 0 := by
    rw [countKey_eq_zero_iff]
    intro r hr hk
    have hmem := List.of_mem_filter hr
    rw [hk] at hmem
    rw [Bool.not_eq_true', ← Bool.not_eq_true, contains_key_iff] at hmem
    exact hmem (exists_key_of_countKey_pos rows k (by omega))
  omega

/-- Witness for C4: a second page repeats an event with the same URL
and a differently-cased title; the merged list holds the key once. -/
theorem C4_dedup_witness :
    countKey (mergeDedup
      [⟨"Fest", "2025-06-10", "18", 3, 2, "https://frivillig.unf.dk/events/kbh/1/"⟩]
      [⟨"FEST", "2025-06-10", "18", 5, 9, "https://frivillig.unf.dk/events/kbh/1/"⟩])
      ("https://frivillig.unf.dk/events/kbh/1/", "fest") = 1 :=
  C4_dedup_across_pages _ _ _ (by decide)

/-- C9: the key set is computed once before a batch is merged, so a
key absent from the accumulated rows is appended as often as the batch
contains it — within-page duplicates are not deduplicated. -/
theorem C9_within_page_duplicates_kept (rows batch : List Record)
    (k : String × String) (h : countKey rows k = 0) :
    countKey (mergeDedup rows batch) k = countKey batch k := by
  unfold mergeDedup
  rw [countKey_append, h, Nat.zero_add]
  unfold countKey
  rw [List.filter_filter]
  congr 1
  apply List.filter_congr
  intro r _
  by_cases hk : (rkey r == k) = true
  · have hc : ((rows.map rkey).contains (rkey r)) = false := by
      rw [← Bool.not_eq_true, contains_key_iff]
      rw [beq_iff_eq] at hk
      rw [hk]
      exact fun he => ((countKey_eq_zero_iff rows k).mp h) he.choose
        he.choose_spec.1 he.choose_spec.2
    simp only [hk, hc, Bool.not_false, Bool.and_true]
  · simp [hk]

/-- Witness for C9: a single page with the same record twice leaves
both copies in the merged list. -/
theorem C9_within_page_witness :
    countKey (mergeDedup []
      [⟨"Fest", "", "", 0, 0, "https://x/events/1"⟩,
       ⟨"Fest", "", "", 0, 0, "https://x/events/1"⟩]) ("https://x/events/1", "fest")
      = countKey
      [⟨"Fest", "", "", 0, 0, "https://x/events/1"⟩,
       ⟨"Fest", "", "", 0, 0, "https://x/events/1"⟩] ("https://x/events/1", "fest")
    ∧ countKey
      [⟨"Fest", "", "", 0, 0, "https://x/events/1"⟩,
       ⟨"Fest", "", "", 0, 0, "https://x/events/1"⟩] ("https://x/events/1", "fest") = 2 :=
  ⟨C9_within_page_duplicates_kept _ _ _ (by decide), by decide⟩

/-- The crawl loop performs at most `maxPages - |seen|` further fetch
calls: each iteration adds the (unvisited) current URL to the visited
set, and the loop guard requires the visited set to stay below the
page bound. -/
theorem crawlGo_count_le (fetch : String → Option Soup) (maxPages : Nat) :
    ∀ n (url : Option String) (seen : List String) (rows : List Record),
      maxPages - seen.length ≤ n →
      (crawlGo fetch maxPages url seen rows).2 ≤ maxPages - seen.length := by
  intro n
  induction n with
  | zero =>
    intro url seen rows h
    cases url with
    | none => simp [crawlGo]
    | some u =>
      rw [crawlGo]
      have hle : maxPages ≤ seen.length := by omega
      simp [hle]
  | succ n ih =>
    intro url seen rows h
    cases url with
    | none => simp [crawlGo]
    | some u =>
      rw [crawlGo]
      split
      · simp
      · rename_i hguard
        simp only [Bool.or_eq_true, decide_eq_true_eq, not_or] at hguard
        cases hfetch : fetch u with
        | none => simp; omega
        | some soup =>
          simp only
          have hrec := ih (find_next_page soup) (u :: seen)
            (mergeDedup rows (extractRecords soup)) (by simp; omega)
          simp only [List.length_cons] at hrec
          omega

/-- C5: `crawl_location` terminates for every start URL, every
page-fetch function and every page bound — it is a total function of
this development, defined by well-founded recursion on
`maxPages - |seen|` — and it performs at most `maxPages` fetch calls,
whatever cycle of next-page links the fetched pages form. -/
theorem C5_crawl_fetch_bound (fetch : String → Option Soup)
    (startUrl : String) (maxPages : Nat) :
    (crawl_location fetch startUrl maxPages).2 ≤ maxPages := by
  have := crawlGo_count_le fetch maxPages maxPages (some startUrl) [] []
    (by simp)
  simpa using this

/-- C10: in the table strategy, when a table has no `<th>` cells and
the header is derived from the first row's `<td>` cells, that same
first row is additionally emitted as a record (the row loop processes
every `<tr>` with `<td>` cells, including the one the header was read
from): the extractor output starts with the record built from the
header row itself. -/
theorem C10_header_row_emitted (t : Table) (tr0 : Tr) (rest : List Tr)
    (hth : thsOf t = [])
    (hrows : t.rows = tr0 :: rest)
    (htd : (tdsOf tr0).isEmpty = false)
    (hguard : ¬ headerHits (((tdsOf tr0).map (fun c => c.text)).map pyLower) < 2) :
    ∃ r : Record,
      rowRecord
        (idx_of (((tdsOf tr0).map (fun c => c.text)).map pyLower) ["navn", "titel", "title"])
        (idx_of (((tdsOf tr0).map (fun c => c.text)).map pyLower) ["dato", "date"])
        (idx_of (((tdsOf tr0).map (fun c => c.text)).map pyLower) ["klokkeslæt", "klokkeslaet", "tid", "time"])
        (idx_of (((tdsOf tr0).map (fun c => c.text)).map pyLower) ["vagter", "vagt"])
        (idx_of (((tdsOf tr0).map (fun c => c.text)).map pyLower) ["reserverede", "deltagere", "tilmeldte"])
        tr0 = some r
      ∧ parseTableOne t = r :: rest.filterMap (rowRecord
        (idx_of (((tdsOf tr0).map (fun c => c.text)).map pyLower) ["navn", "titel", "title"])
        (idx_of (((tdsOf tr0).map (fun c => c.text)).map pyLower) ["dato", "date"])
        (idx_of (((tdsOf tr0).map (fun c => c.text)).map pyLower) ["klokkeslæt", "klokkeslaet", "tid", "time"])
        (idx_of (((tdsOf tr0).map (fun c => c.text)).map pyLower) ["vagter", "vagt"])
        (idx_of (((tdsOf tr0).map (fun c => c.text)).map pyLower) ["reserverede", "deltagere", "tilmeldte"])) := by
  have hhead : headCellsOf t = tdsOf tr0 := by
    unfold headCellsOf
    rw [hth, hrows]
    simp
  have hne : ((tdsOf tr0).map (fun c => c.text)).isEmpty = false := by
    simpa using htd
  cases hrr : rowRecord
      (idx_of (((tdsOf tr0).map (fun c => c.text)).map pyLower) ["navn", "titel", "title"])
      (idx_of (((tdsOf tr0).map (fun c => c.text)).map pyLower) ["dato", "date"])
      (idx_of (((tdsOf tr0).map (fun c => c.text)).map pyLower) ["klokkeslæt", "klokkeslaet", "tid", "time"])
      (idx_of (((tdsOf tr0).map (fun c => c.text)).map pyLower) ["vagter", "vagt"])
      (idx_of (((tdsOf tr0).map (fun c => c.text)).map pyLower) ["reserverede", "deltagere", "tilmeldte"])
      tr0 with
  | none =>
    exfalso
    unfold rowRecord at hrr
    simp [htd] at hrr
  | some r =>
    refine ⟨r, rfl, ?_⟩
    unfold parseTableOne
    rw [hhead, hrows]
    simp only [hne, Bool.false_eq_true, if_false]
    rw [if_neg hguard]
    rw [List.filterMap_cons, hrr]

/-- Witness for C10 at the headerless fixture table: the first emitted
record carries the header texts as its fields (`Navn` as the title, the
unparseable `Dato` as an empty date, `Klokkeslæt` as the time), ahead
of the real data row. -/
theorem C10_header_row_witness :
    (∃ r : Record,
      rowRecord
        (idx_of (((tdsOf headerlessRow0).map (fun c => c.text)).map pyLower) ["navn", "titel", "title"])
        (idx_of (((tdsOf headerlessRow0).map (fun c => c.text)).map pyLower) ["dato", "date"])
        (idx_of (((tdsOf headerlessRow0).map (fun c => c.text)).map pyLower) ["klokkeslæt", "klokkeslaet", "tid", "time"])
        (idx_of (((tdsOf headerlessRow0).map (fun c => c.text)).map pyLower) ["vagter", "vagt"])
        (idx_of (((tdsOf headerlessRow0).map (fun c => c.text)).map pyLower) ["reserverede", "deltagere", "tilmeldte"])
        headerlessRow0 = some r
      ∧ parseTableOne headerlessTable = r :: [headerlessRow1].filterMap (rowRecord
        (idx_of (((tdsOf headerlessRow0).map (fun c => c.text)).map pyLower) ["navn", "titel", "title"])
        (idx_of (((tdsOf headerlessRow0).map (fun c => c.text)).map pyLower) ["dato", "date"])
        (idx_of (((tdsOf headerlessRow0).map (fun c => c.text)).map pyLower) ["klokkeslæt", "klokkeslaet", "tid", "time"])
        (idx_of (((tdsOf headerlessRow0).map (fun c => c.text)).map pyLower) ["vagter", "vagt"])
        (idx_of (((tdsOf headerlessRow0).map (fun c => c.text)).map pyLower) ["reserverede", "deltagere", "tilmeldte"])))
    ∧ parseTableOne headerlessTable =
      [{ navn := "Navn", dato := "", klok := "Klokkeslæt", vagter := 0,
         reserverede := 0, url := "" },
       { navn := "Koncert", dato := "2025-12-24", klok := "19", vagter := 0,
         reserverede := 0, url := "https://frivillig.unf.dk/events/kbh/7/" }] :=
  ⟨C10_header_row_emitted headerlessTable headerlessRow0 [headerlessRow1]
      (by decide) rfl (by decide) (by decide),
    by decide⟩

/-- `Char.ofNat` of a code below the surrogate range keeps its code. -/
theorem char_toNat_ofNat (n : Nat) (h : n < 55296) : (Char.ofNat n).toNat = n := by
  have hv : n.isValidChar := Or.inl h
  rw [Char.ofNat, dif_pos hv]
  rfl

/-- The character of a decimal digit is a digit character. -/
theorem digitChar_isDigit (k : Nat) (h : k < 10) :
    (Char.ofNat (48 + k)).isDigit = true := by
  interval_cases k <;> decide

/-- Decimal formatting only produces digit characters. -/
theorem natDigitsGo_isDigit :
    ∀ fuel n acc, (∀ c ∈ acc, c.isDigit = true) →
      ∀ c ∈ natDigitsGo fuel n acc, c.isDigit = true := by
  intro fuel
  induction fuel with
  | zero => intro n acc hacc; simpa [natDigitsGo] using hacc
  | succ fuel ih =>
    intro n acc hacc c hc
    rw [natDigitsGo] at hc
    by_cases hn : n < 10
    · rw [if_pos hn] at hc
      rcases List.mem_cons.mp hc with h1 | h2
      · exact h1 ▸ digitChar_isDigit n hn
      · exact hacc c h2
    · rw [if_neg hn] at hc
      refine ih (n / 10) _ ?_ c hc
      intro c2 hc2
      rcases List.mem_cons.mp hc2 with h1 | h2
      · exact h1 ▸ digitChar_isDigit (n % 10) (Nat.mod_lt n (by omega))
      · exact hacc c2 h2

/-- Length of the formatted digits of `n` with sufficient fuel: a
number between `10 ^ k` and `10 ^ (k+1)` has `k + 1` digits. -/
theorem natDigitsGo_length :
    ∀ fuel k n acc, n < fuel → 10 ^ k ≤ n → n < 10 ^ (k + 1) →
      (natDigitsGo fuel n acc).length = k + 1 + acc.length := by
  intro fuel
  induction fuel with
  | zero => intro k n acc h1; omega
  | succ fuel ih =>
    intro k n acc h1 h2 h3
    rw [natDigitsGo]
    by_cases hn : n < 10
    · rw [if_pos hn]
      have hk : k = 0 := by
        by_contra hk0
        have : 10 ^ 1 ≤ 10 ^ k := Nat.pow_le_pow_right (by omega) (by omega)
        simp [pow_one] at this
        omega
      simp [hk]
      omega
    · rw [if_neg hn]
      have hk : 1 ≤ k := by
        by_contra hk0
        have : k = 0 := by omega
        rw [this, pow_one] at h3
        omega
      have hd1 : n / 10 < fuel := by
        have h10 : n / 10 < n := Nat.div_lt_self (by omega) (by omega)
        omega
      have hd2 : 10 ^ (k - 1) ≤ n / 10 := by
        rw [Nat.le_div_iff_mul_le (by omega)]
        calc 10 ^ (k - 1) * 10 = 10 ^ k := by
              rw [← pow_succ]
              congr 1
              omega
          _ ≤ n := h2
      have hd3 : n / 10 < 10 ^ (k - 1 + 1) := by
        rw [Nat.div_lt_iff_lt_mul (by omega)]
        calc n < 10 ^ (k + 1) := h3
          _ = 10 ^ (k - 1 + 1) * 10 := by
              rw [← pow_succ]
              congr 1
              omega
      have := ih (k - 1) (n / 10) (Char.ofNat (48 + n % 10) :: acc) hd1 hd2 hd3
      rw [this]
      simp
      omega

/-- All characters of `natDigits` are digits. -/
theorem natDigits_isDigit (n : Nat) : ∀ c ∈ natDigits n, c.isDigit = true :=
  natDigitsGo_isDigit (n + 1) n [] (by simp)

/-- Digit count of `natDigits`. -/
theorem natDigits_length (k n : Nat) (h2 : 10 ^ k ≤ n) (h3 : n < 10 ^ (k + 1)) :
    (natDigits n).length = k + 1 := by
  have := natDigitsGo_length (n + 1) k n [] (by omega) h2 h3
  simpa [natDigits] using this

/-- A two-element list in explicit form. -/
theorem list_eq_pair_of_length_two {α : Type} (l : List α) (h : l.length = 2) :
    ∃ a b, l = [a, b] := by
  match l, h with
  | [a, b], _ => exact ⟨a, b, rfl⟩

/-- A four-element list in explicit form. -/
theorem list_eq_four_of_length_four {α : Type} (l : List α) (h : l.length = 4) :
    ∃ a b c d, l = [a, b, c, d] := by
  match l, h with
  | [a, b, c, d], _ => exact ⟨a, b, c, d, rfl⟩

/-- A one-element list in explicit form. -/
theorem list_eq_one_of_length_one {α : Type} (l : List α) (h : l.length = 1) :
    ∃ a, l = [a] := by
  match l, h with
  | [a], _ => exact ⟨a, rfl⟩

/-- Zero-padded two-digit formatting yields exactly two digit
characters for values from 1 to 99. -/
theorem pad2_shape (n : Nat) (h1 : 1 ≤ n) (h2 : n ≤ 99) :
    ∃ a b, (pad2 n).data = [a, b] ∧ a.isDigit = true ∧ b.isDigit = true := by
  unfold pad2
  by_cases hn : n < 10
  · rw [if_pos hn]
    have hlen : (natDigits n).length = 1 :=
      natDigits_length 0 n (by omega) (by simpa using hn)
    obtain ⟨a, ha⟩ := list_eq_one_of_length_one _ hlen
    refine ⟨'0', a, ?_, by decide, natDigits_isDigit n a (by simp [ha])⟩
    rw [String.data_append]
    simp [natStr, ha]
  · rw [if_neg hn]
    have hlen : (natDigits n).length = 2 :=
      natDigits_length 1 n (by simpa using hn) (by simpa using h2.trans_lt (by omega))
    obtain ⟨a, b, hab⟩ := list_eq_pair_of_length_two _ hlen
    exact ⟨a, b, by simp [natStr, hab],
      natDigits_isDigit n a (by simp [hab]),
      natDigits_isDigit n b (by simp [hab])⟩

/-- No month has more than 31 days. -/
theorem daysInMonth_le_31 (y m : Nat) : daysInMonth y m ≤ 31 := by
  unfold daysInMonth
  split
  · split <;> omega
  · split <;> omega

/-- For a valid date with a four-digit year, the `%Y-%m-%d` output has
the exact `YYYY-MM-DD` shape. -/
theorem isIsoDateShape_fmtDate (y m d : Nat) (hy1 : 1000 ≤ y) (hy2 : y ≤ 9999)
    (hm1 : 1 ≤ m) (hm2 : m ≤ 12) (hd1 : 1 ≤ d) (hd2 : d ≤ 31) :
    isIsoDateShape (fmtDateIso y m d) = true := by
  have hylen : (natDigits y).length = 4 := by
    have : (10 : Nat) ^ 3 = 1000 := by norm_num
    refine natDigits_length 3 y (by omega) ?_
    have h4 : (10 : Nat) ^ 4 = 10000 := by norm_num
    omega
  obtain ⟨a, b, c, e, habce⟩ := list_eq_four_of_length_four _ hylen
  obtain ⟨f, g, hfg, hfd, hgd⟩ := pad2_shape m hm1 (by omega)
  obtain ⟨h, i, hhi, hhd, hid⟩ := pad2_shape d hd1 (by omega)
  have hdata : (fmtDateIso y m d).data
      = [a, b, c, e, '-', f, g, '-', h, i] := by
    unfold fmtDateIso
    rw [String.data_append, String.data_append, String.data_append,
      String.data_append]
    simp [natStr, habce, hfg, hhi]
  have hda := natDigits_isDigit y a (by simp [habce])
  have hdb := natDigits_isDigit y b (by simp [habce])
  have hdc := natDigits_isDigit y c (by simp [habce])
  have hde := natDigits_isDigit y e (by simp [habce])
  unfold isIsoDateShape
  rw [hdata]
  simp [hda, hdb, hdc, hde, hfd, hgd, hhd, hid]

/-- Whatever the date parser returns passed the `datetime` validity
check. -/
theorem dateutil_parse_valid (s : String) (y m d : Nat)
    (h : dateutil_parse_dayfirst s = some (y, m, d)) :
    validDate y m d = true := by
  unfold dateutil_parse_dayfirst at h
  cases hg : threeNumberGroups s.data with
  | none => rw [hg] at h; exact absurd h (by simp)
  | some g =>
    obtain ⟨⟨v1, n1⟩, ⟨v2, n2⟩, v3, n3⟩ := g
    rw [hg] at h
    simp only at h
    split_ifs at h
    all_goals try exact Option.noConfusion h
    all_goals {
      injection h with h3
      rw [Prod.ext_iff] at h3
      obtain ⟨ha, hb⟩ := h3
      rw [Prod.ext_iff] at hb
      obtain ⟨hb1, hb2⟩ := hb
      simp only at ha hb1 hb2
      rw [← ha, ← hb1, ← hb2]
      assumption
    }

/-- C8 (amended): `norm_date` is total (the model never raises) and
returns either the empty string or `%Y-%m-%d` of a valid parsed date:
zero-padded two-digit month and day and an unpadded year, which has
the exact `YYYY-MM-DD` shape whenever the parsed year is at least 1000
(every input the site can realistically serve).  Years below 1000 --
see the counterexample -- print with fewer than four digits. -/
theorem C8_norm_date_shape (s : String) :
    norm_date s = "" ∨
    ∃ y m d : Nat, dateutil_parse_dayfirst s = some (y, m, d)
      ∧ norm_date s = fmtDateIso y m d
      ∧ validDate y m d = true
      ∧ (1000 ≤ y → isIsoDateShape (norm_date s) = true) := by
  by_cases hs : s = ""
  · left
    simp [norm_date, hs]
  · cases hp : dateutil_parse_dayfirst s with
    | none => left; simp [norm_date, hs, hp]
    | some t =>
      obtain ⟨y, m, d⟩ := t
      right
      have hv := dateutil_parse_valid s y m d hp
      have hnd : norm_date s = fmtDateIso y m d := by
        simp [norm_date, hs, hp]
      refine ⟨y, m, d, rfl, hnd, hv, fun hy => ?_⟩
      rw [hnd]
      have hv2 := hv
      simp only [validDate, Bool.and_eq_true, decide_eq_true_eq] at hv2
      have hd31 : d ≤ 31 := le_trans hv2.2 (daysInMonth_le_31 y m)
      exact isIsoDateShape_fmtDate y m d hy (by omega) (by omega) (by omega)
        (by omega) hd31

/-- Witness for C8 at the concrete input `"10-06-2025"`. -/
theorem C8_norm_date_shape_witness :
    norm_date "10-06-2025" = "" ∨
    ∃ y m d : Nat, dateutil_parse_dayfirst "10-06-2025" = some (y, m, d)
      ∧ norm_date "10-06-2025" = fmtDateIso y m d
      ∧ validDate y m d = true
      ∧ (1000 ≤ y → isIsoDateShape (norm_date "10-06-2025") = true) :=
  C8_norm_date_shape "10-06-2025"

/-- Mapping preserves emptiness. -/
theorem isEmpty_map {α β : Type} (h : α → β) (l : List α) :
    (l.map h).isEmpty = l.isEmpty := by
  cases l <;> rfl

/-- The per-row extractor never reads a class token: replacing every
class list leaves its output unchanged. -/
theorem rowRecord_mapClasses (f g : List String → List String)
    (iN iD iT iV iR : Option Nat) (tr : Tr) :
    rowRecord iN iD iT iV iR
      { cells := tr.cells.map (fun c => { c with classes := g c.classes })
        classes := f tr.classes } = rowRecord iN iD iT iV iR tr := by
  unfold rowRecord rowFirstLink tdsOf
  simp only [List.filter_map, Function.comp_def, List.map_map,
    List.getElem?_map, List.findSome?_map, List.headD_map, isEmpty_map]
  cases hemp : (List.filter (fun x => x.kind == CellKind.td) tr.cells).isEmpty with
  | true => rfl
  | false =>
    cases iN with
    | none => rfl
    | some i =>
      simp only [Option.some_bind]
      cases hcell : (List.filter (fun x => x.kind == CellKind.td) tr.cells)[i]? with
      | none => rfl
      | some cell => rfl

/-- Header derivation commutes with replacing class tokens. -/
theorem headCellsOf_mapClasses (f g : List String → List String) (t : Table) :
    headCellsOf { rows := t.rows.map (fun tr =>
      { cells := tr.cells.map (fun c => { c with classes := g c.classes })
        classes := f tr.classes }) }
    = (headCellsOf t).map (fun c => { c with classes := g c.classes }) := by
  unfold headCellsOf thsOf tdsOf
  simp only [List.flatMap_map, Function.comp_def, List.filter_map,
    List.map_map, List.head?_map, ← List.map_flatMap, isEmpty_map]
  cases hemp : ((t.rows.flatMap fun tr =>
      List.filter (fun x => x.kind == CellKind.th) tr.cells)).isEmpty with
  | true =>
    simp only [if_true]
    cases hh : t.rows.head? with
    | none => simp
    | some tr0 =>
      simp [List.filter_map, Function.comp_def]
  | false =>
    simp

/-- The single-table extractor ignores class tokens. -/
theorem parseTableOne_mapClasses (f g : List String → List String) (t : Table) :
    parseTableOne { rows := t.rows.map (fun tr =>
      { cells := tr.cells.map (fun c => { c with classes := g c.classes })
        classes := f tr.classes }) } = parseTableOne t := by
  unfold parseTableOne
  rw [headCellsOf_mapClasses]
  have hrr : ∀ iN iD iT iV iR, (fun tr => rowRecord iN iD iT iV iR
      { cells := tr.cells.map (fun c => { c with classes := g c.classes })
        classes := f tr.classes }) = rowRecord iN iD iT iV iR :=
    fun iN iD iT iV iR => funext (fun tr => rowRecord_mapClasses f g iN iD iT iV iR tr)
  simp only [List.map_map, Function.comp_def, List.filterMap_map, hrr]

/-- `parse_table` ignores class tokens entirely. -/
theorem parse_table_mapClasses (f g : List String → List String) (soup : Soup) :
    parse_table (soupMapClasses f g soup) = parse_table soup := by
  unfold parse_table soupMapClasses
  simp only [List.flatMap_map]
  simp only [parseTableOne_mapClasses]

/-- Two strings differ when one extends a prefix the other does not
start with. -/
theorem str_ne_append_of_take_ne (p s q : String)
    (h : q.data.take p.data.length ≠ p.data) : q ≠ p ++ s := by
  intro he
  rw [he, String.data_append, List.take_left] at h
  exact h rfl

/-- Every emitted event carries `STATUS:CONFIRMED` and never
`STATUS:CANCELLED`, whatever the record holds. -/
theorem eventLines_status_confirmed (it : Record) (cal now : String) :
    "STATUS:CANCELLED" ∉ eventLines it cal now
    ∧ (eventLines it cal now = [] ∨ "STATUS:CONFIRMED" ∈ eventLines it cal now) := by
  cases hdt : parse_dt_local it.dato it.klok with
  | none => simp [eventLines, hdt]
  | some st =>
    constructor
    · simp only [eventLines, hdt, rows_to_ics_event, List.mem_append,
        List.mem_cons, List.not_mem_nil, not_or]
      refine ⟨⟨⟨⟨?_, ?_, ?_⟩, ?_⟩, ?_⟩, ?_, ?_, ?_, ?_⟩
      · refine ⟨?_, ?_, ?_, ?_, ?_, ?_⟩
        · decide
        · exact str_ne_append_of_take_ne "UID:" _ _ (by decide)
        · exact str_ne_append_of_take_ne "DTSTAMP:" _ _ (by decide)
        · exact str_ne_append_of_take_ne "DTSTART;TZID=Europe/Copenhagen:" _ _ (by decide)
        · exact str_ne_append_of_take_ne "DTEND;TZID=Europe/Copenhagen:" _ _ (by decide)
        · exact not_false
      · exact str_ne_append_of_take_ne "SUMMARY:" _ _ (by decide)
      · exact not_false
      · split
        · simp only [List.mem_cons, List.not_mem_nil, or_false]
          exact str_ne_append_of_take_ne "URL:" _ _ (by decide)
        · simp
      · split
        · simp only [List.mem_cons, List.not_mem_nil, or_false]
          exact str_ne_append_of_take_ne "DESCRIPTION:" _ _ (by decide)
        · simp
      · decide
      · decide
      · decide
      · exact not_false
    · right
      simp [eventLines, hdt, rows_to_ics_event]

/-- C2 (amended): the extractor has no cancellation detection at all —
`parse_table` ignores every class token (row and cell class lists can
be replaced arbitrarily without changing its output), no record carries
a cancellation mark, and the encoder emits `STATUS:CONFIRMED` for every
event it emits, never `STATUS:CANCELLED`.  The spec's marker condition
(see `claimed_cancel_markers` and the counterexample) matches nothing
in the code. -/
theorem C2_no_cancellation_always_confirmed :
    (∀ (soup : Soup) (f g : List String → List String),
      parse_table (soupMapClasses f g soup) = parse_table soup)
    ∧ (∀ (it : Record) (cal now : String),
      "STATUS:CANCELLED" ∉ eventLines it cal now
      ∧ (eventLines it cal now = [] ∨ "STATUS:CONFIRMED" ∈ eventLines it cal now)) :=
  ⟨fun soup f g => parse_table_mapClasses f g soup,
    fun it cal now => eventLines_status_confirmed it cal now⟩

/-- Every chunk has at most `k` elements (with enough fuel). -/
theorem chunksGo_length_le {α : Type} (k : Nat) (hk : 1 ≤ k) :
    ∀ fuel (l : List α), l.length ≤ fuel →
      ∀ c ∈ chunksGo k fuel l, c.length ≤ k := by
  intro fuel
  induction fuel with
  | zero =>
    intro l hl c hc
    have : l = [] := List.eq_nil_of_length_eq_zero (by omega)
    subst this
    simp [chunksGo] at hc
  | succ fuel ih =>
    intro l hl c hc
    cases l with
    | nil => simp [chunksGo] at hc
    | cons a t =>
      have hred : chunksGo k (fuel + 1) (a :: t)
          = (a :: t).take k :: chunksGo k fuel ((a :: t).drop k) := rfl
      rw [hred] at hc
      rcases List.mem_cons.mp hc with h1 | h2
      · subst h1
        simp [List.length_take]
      · refine ih _ ?_ c h2
        simp only [List.length_drop, List.length_cons] at *
        omega

/-- Concatenating the chunks gives back the list. -/
theorem chunksGo_join {α : Type} (k : Nat) :
    ∀ fuel (l : List α), (chunksGo k fuel l).join = l := by
  intro fuel
  induction fuel with
  | zero =>
    intro l
    cases l with
    | nil => rfl
    | cons a t => simp [chunksGo]
  | succ fuel ih =>
    intro l
    cases l with
    | nil => rfl
    | cons a t =>
      have hred : chunksGo k (fuel + 1) (a :: t)
          = (a :: t).take k :: chunksGo k fuel ((a :: t).drop k) := rfl
      rw [hred]
      have hjc : ((a :: t).take k :: chunksGo k fuel ((a :: t).drop k)).join
          = (a :: t).take k ++ (chunksGo k fuel ((a :: t).drop k)).join := rfl
      rw [hjc, ih]
      exact List.take_append_drop k (a :: t)

/-- Chunk elements come from the original list. -/
theorem chunksGo_mem_of_mem_chunk {α : Type} (k fuel : Nat) (l c : List α)
    (hc : c ∈ chunksGo k fuel l) : ∀ x ∈ c, x ∈ l := by
  intro x hx
  rw [← chunksGo_join k fuel l]
  exact List.mem_join.mpr ⟨c, hc, hx⟩

/-- Chunking commutes with mapping. -/
theorem chunksGo_map {α β : Type} (h : α → β) (k : Nat) :
    ∀ fuel (l : List α),
      chunksGo k fuel (l.map h) = (chunksGo k fuel l).map (List.map h) := by
  intro fuel
  induction fuel with
  | zero =>
    intro l
    cases l with
    | nil => rfl
    | cons a t => rfl
  | succ fuel ih =>
    intro l
    cases l with
    | nil => rfl
    | cons a t =>
      have hred1 : chunksGo k (fuel + 1) ((a :: t).map h)
          = ((a :: t).map h).take k :: chunksGo k fuel (((a :: t).map h).drop k) := rfl
      have hred2 : chunksGo k (fuel + 1) (a :: t)
          = (a :: t).take k :: chunksGo k fuel ((a :: t).drop k) := rfl
      rw [hred1, hred2, ← List.map_take, ← List.map_drop, ih]
      rfl

/-- Byte lengths of the UTF-8 encoding of one character, by code
range. -/
theorem charUtf8_length (c : Char) :
    (charUtf8 c).length ≤ 4
    ∧ (c.toNat < 65536 → (charUtf8 c).length ≤ 3)
    ∧ (c.toNat < 2048 → (charUtf8 c).length ≤ 2)
    ∧ (c.toNat < 128 → charUtf8 c = [c.toNat]) := by
  unfold charUtf8
  split_ifs with h1 h2 h3 <;> simp <;> omega

/-- `Char.ofNat` keeps the code or falls back to zero. -/
theorem char_ofNat_toNat_cases (n : Nat) :
    (Char.ofNat n).toNat = n ∨ (Char.ofNat n).toNat = 0 := by
  by_cases hv : n.isValidChar
  · left
    rw [Char.ofNat, dif_pos hv]
    rfl
  · right
    rw [Char.ofNat, dif_neg hv]
    rfl

/-- UTF-8 encoding of a cons. -/
theorem utf8Encode_cons (c : Char) (l : List Char) :
    utf8Encode (c :: l) = charUtf8 c ++ utf8Encode l := rfl

/-- One encoded byte for a code below 128. -/
theorem charUtf8_ofNat_le1 (x : Nat) (hx : x < 128) :
    (charUtf8 (Char.ofNat x)).length = 1 := by
  rcases char_ofNat_toNat_cases x with h | h <;>
    rw [(charUtf8_length _).2.2.2 (by omega)] <;> rfl

/-- At most two encoded bytes for a code below 2048. -/
theorem charUtf8_ofNat_le2 (x : Nat) (hx : x < 2048) :
    (charUtf8 (Char.ofNat x)).length ≤ 2 := by
  rcases char_ofNat_toNat_cases x with h | h <;>
    exact (charUtf8_length _).2.2.1 (by omega)

/-- At most three encoded bytes for a code below 65536. -/
theorem charUtf8_ofNat_le3 (x : Nat) (hx : x < 65536) :
    (charUtf8 (Char.ofNat x)).length ≤ 3 := by
  rcases char_ofNat_toNat_cases x with h | h <;>
    exact (charUtf8_length _).2.1 (by omega)

/-- At most four encoded bytes for any character. -/
theorem charUtf8_ofNat_le4 (x : Nat) :
    (charUtf8 (Char.ofNat x)).length ≤ 4 :=
  (charUtf8_length _).1

/-- A continuation byte lies in `128..191`. -/
theorem isCont_bound (b : Nat) (h : isCont b = true) : 128 ≤ b ∧ b ≤ 191 := by
  simp only [isCont, Bool.and_eq_true, decide_eq_true_eq] at h
  exact h

/-- The three-byte second-byte check admits only `128..191`. -/
theorem byte2check3_bound (b1 b2 : Nat)
    (h : (if b1 = 224 then 160 ≤ b2 && b2 ≤ 191
          else if b1 = 237 then 128 ≤ b2 && b2 ≤ 159
          else isCont b2) = true) : 128 ≤ b2 ∧ b2 ≤ 191 := by
  split_ifs at h <;>
    simp only [isCont, Bool.and_eq_true, decide_eq_true_eq] at h <;> omega

/-- The four-byte second-byte check admits only `128..191`. -/
theorem byte2check4_bound (b1 b2 : Nat)
    (h : (if b1 = 240 then 144 ≤ b2 && b2 ≤ 191
          else if b1 = 244 then 128 ≤ b2 && b2 ≤ 143
          else isCont b2) = true) : 128 ≤ b2 ∧ b2 ≤ 191 := by
  split_ifs at h <;>
    simp only [isCont, Bool.and_eq_true, decide_eq_true_eq] at h <;> omega

/-- Re-encoding the decoded characters never yields more bytes than
the input slice: every decoded character re-encodes to at most the
bytes consumed for it, and dropped bytes contribute nothing. -/
theorem decodeIgnoreGo_utf8_length :
    ∀ fuel (bs : List Nat),
      (utf8Encode (decodeIgnoreGo fuel bs)).length ≤ bs.length := by
  intro fuel
  induction fuel with
  | zero => intro bs; simp [decodeIgnoreGo, utf8Encode]
  | succ fuel ih =>
    intro bs
    cases bs with
    | nil => simp [decodeIgnoreGo, utf8Encode]
    | cons b1 rest =>
      rw [decodeIgnoreGo.eq_def]
      simp only []
      by_cases h1 : b1 < 128
      · rw [if_pos h1, utf8Encode_cons, List.length_append]
        have ha := ih rest
        have hb := charUtf8_ofNat_le1 b1 h1
        simp only [List.length_cons]
        omega
      · rw [if_neg h1]
        by_cases h2 : (194 ≤ b1 && b1 ≤ 223) = true
        · rw [if_pos h2]
          simp only [Bool.and_eq_true, decide_eq_true_eq] at h2
          cases rest with
          | nil => simp [utf8Encode]
          | cons b2 r2 =>
            simp only []
            by_cases hc : isCont b2 = true
            · rw [if_pos hc, utf8Encode_cons, List.length_append]
              obtain ⟨hcl, hcu⟩ := isCont_bound b2 hc
              have ha := ih r2
              have hb := charUtf8_ofNat_le2 ((b1 - 192) * 64 + (b2 - 128)) (by omega)
              simp only [List.length_cons]
              omega
            · rw [if_neg hc]
              have ha := ih (b2 :: r2)
              simp only [List.length_cons] at *
              omega
        · rw [if_neg h2]
          by_cases h3 : (224 ≤ b1 && b1 ≤ 239) = true
          · rw [if_pos h3]
            simp only [Bool.and_eq_true, decide_eq_true_eq] at h3
            cases rest with
            | nil => simp [utf8Encode]
            | cons b2 r2 =>
              simp only []
              by_cases hc : (if b1 = 224 then 160 ≤ b2 && b2 ≤ 191
                  else if b1 = 237 then 128 ≤ b2 && b2 ≤ 159
                  else isCont b2) = true
              · rw [if_pos hc]
                obtain ⟨hcl, hcu⟩ := byte2check3_bound b1 b2 hc
                cases r2 with
                | nil => simp [utf8Encode]
                | cons b3 r3 =>
                  simp only []
                  by_cases hd : isCont b3 = true
                  · rw [if_pos hd, utf8Encode_cons, List.length_append]
                    obtain ⟨hdl, hdu⟩ := isCont_bound b3 hd
                    have ha := ih r3
                    have hb := charUtf8_ofNat_le3
                      ((b1 - 224) * 4096 + (b2 - 128) * 64 + (b3 - 128)) (by omega)
                    simp only [List.length_cons]
                    omega
                  · rw [if_neg hd]
                    have ha := ih (b2 :: b3 :: r3)
                    simp only [List.length_cons] at *
                    omega
              · rw [if_neg hc]
                have ha := ih (b2 :: r2)
                simp only [List.length_cons] at *
                omega
          · rw [if_neg h3]
            by_cases h4 : (240 ≤ b1 && b1 ≤ 244) = true
            · rw [if_pos h4]
              cases rest with
              | nil => simp [utf8Encode]
              | cons b2 r2 =>
                simp only []
                by_cases hc : (if b1 = 240 then 144 ≤ b2 && b2 ≤ 191
                    else if b1 = 244 then 128 ≤ b2 && b2 ≤ 143
                    else isCont b2) = true
                · rw [if_pos hc]
                  cases r2 with
                  | nil => simp [utf8Encode]
                  | cons b3 r3 =>
                    simp only []
                    by_cases hd : isCont b3 = true
                    · rw [if_pos hd]
                      cases r3 with
                      | nil => simp [utf8Encode]
                      | cons b4 r4 =>
                        simp only []
                        by_cases he : isCont b4 = true
                        · rw [if_pos he, utf8Encode_cons, List.length_append]
                          have ha := ih r4
                          have hb := charUtf8_ofNat_le4
                            ((b1 - 240) * 262144 + (b2 - 128) * 4096
                              + (b3 - 128) * 64 + (b4 - 128))
                          simp only [List.length_cons]
                          omega
                        · rw [if_neg he]
                          have ha := ih (b2 :: b3 :: b4 :: r4)
                          simp only [List.length_cons] at *
                          omega
                    · rw [if_neg hd]
                      have ha := ih (b2 :: b3 :: r3)
                      simp only [List.length_cons] at *
                      omega
                · rw [if_neg hc]
                  have ha := ih (b2 :: r2)
                  simp only [List.length_cons] at *
                  omega
            · rw [if_neg h4]
              have ha := ih rest
              simp only [List.length_cons] at *
              omega

/-- ASCII text encodes byte-per-character. -/
theorem utf8Encode_ascii (l : List Char) (h : ∀ c ∈ l, c.toNat < 128) :
    utf8Encode l = l.map Char.toNat := by
  induction l with
  | nil => rfl
  | cons c t ih =>
    rw [utf8Encode_cons, (charUtf8_length c).2.2.2 (h c (by simp)),
      List.map_cons]
    rw [ih (fun c2 hc2 => h c2 (by simp [hc2]))]
    rfl

/-- Decoding the bytes of ASCII text gives back the text. -/
theorem decodeIgnoreGo_ascii :
    ∀ fuel (l : List Char), (∀ c ∈ l, c.toNat < 128) → l.length ≤ fuel →
      decodeIgnoreGo fuel (l.map Char.toNat) = l := by
  intro fuel
  induction fuel with
  | zero =>
    intro l h hl
    have : l = [] := List.eq_nil_of_length_eq_zero (by omega)
    subst this
    rfl
  | succ fuel ih =>
    intro l h hl
    cases l with
    | nil => rfl
    | cons c t =>
      rw [List.map_cons, decodeIgnoreGo.eq_def]
      simp only []
      rw [if_pos (h c (by simp))]
      rw [Char.ofNat_toNat, ih t (fun c2 hc2 => h c2 (by simp [hc2]))
        (by simp at hl ⊢; omega)]

/-- Unfolding leaves CR-free text unchanged. -/
theorem unfoldData_noCR (l : List Char) (h : ∀ c ∈ l, c ≠ '\r') :
    unfoldData l = l := by
  induction l with
  | nil => rfl
  | cons c t ih =>
    have hc : c ≠ '\r' := h c (by simp)
    have ht : ∀ c2 ∈ t, c2 ≠ '\r' := fun c2 hc2 => h c2 (by simp [hc2])
    cases t with
    | nil => rfl
    | cons d t2 =>
      cases t2 with
      | nil => rfl
      | cons e t3 =>
        rw [unfoldData.eq_def]
        simp only []
        rw [if_neg (fun hand => hc hand.1)]
        rw [ih ht]

/-- Unfolding deletes a CRLF-space seam after a CR-free prefix. -/
theorem unfoldData_seam (m : List Char) :
    ∀ (l : List Char), (∀ c ∈ l, c ≠ '\r') →
      unfoldData (l ++ '\r' :: '\n' :: ' ' :: m) = l ++ unfoldData m := by
  intro l
  induction l with
  | nil =>
    intro _
    have h1 : unfoldData ('\r' :: '\n' :: ' ' :: m) = unfoldData m := rfl
    rw [List.nil_append, h1, List.nil_append]
  | cons c t ih =>
    intro h
    have hc : c ≠ '\r' := h c (by simp)
    have ht : ∀ c2 ∈ t, c2 ≠ '\r' := fun c2 hc2 => h c2 (by simp [hc2])
    rw [List.cons_append]
    cases t with
    | nil =>
      rw [unfoldData.eq_def]
      simp only [List.nil_append]
      rw [if_neg (fun hand => hc hand.1)]
      have := ih ht
      rw [List.nil_append] at this
      rw [this]
      rfl
    | cons d t2 =>
      cases t2 with
      | nil =>
        rw [unfoldData.eq_def]
        simp only [List.cons_append, List.nil_append]
        rw [if_neg (fun hand => hc hand.1)]
        have := ih ht
        rw [List.cons_append, List.nil_append] at this
        rw [this]
        rfl
      | cons e t3 =>
        rw [unfoldData.eq_def]
        simp only [List.cons_append]
        rw [if_neg (fun hand => hc hand.1)]
        have := ih ht
        rw [List.cons_append, List.cons_append] at this
        rw [this]
        simp

/-- Unfolding the CRLF-space join of CR-free chunks concatenates the
chunks. -/
theorem unfoldData_foldJoin :
    ∀ (ks : List (List Char)), (∀ k ∈ ks, ∀ c ∈ k, c ≠ '\r') →
      unfoldData (foldJoinData ks) = ks.join := by
  intro ks
  induction ks with
  | nil => intro _; rfl
  | cons k rest ih =>
    intro h
    cases rest with
    | nil =>
      have h1 : foldJoinData [k] = k := by
        simp [foldJoinData]
      have h2 : ([k] : List (List Char)).join = k := by simp
      rw [h1, h2]
      exact unfoldData_noCR k (h k (by simp))
    | cons k2 rest2 =>
      have h1 : foldJoinData (k :: k2 :: rest2)
          = k ++ ('\r' :: '\n' :: ' ' :: foldJoinData (k2 :: rest2)) := by
        simp only [foldJoinData, List.flatMap_cons]
        rfl
      rw [h1, unfoldData_seam _ k (h k (by simp)),
        ih (fun k3 hk3 => h k3 (by simp [hk3]))]
      rfl

/-- Every decoded chunk re-encodes to at most 75 octets. -/
theorem foldChunksDecoded_ulen (line : String) :
    ∀ k ∈ foldChunksDecoded line, utf8Len (String.mk k) ≤ 75 := by
  intro k hk
  unfold foldChunksDecoded at hk
  obtain ⟨c, hc, rfl⟩ := List.mem_map.mp hk
  have h1 : c.length ≤ 75 :=
    chunksGo_length_le 75 (by omega) _ _ le_rfl c hc
  have h2 := decodeIgnoreGo_utf8_length c.length c
  simpa [utf8Len, decodeIgnore] using le_trans h2 h1

/-- C3 (amended): for every line, the first physical output line of
`fold_ical_line` is at most 75 octets and every continuation line
begins with exactly one added space and is at most 76 octets (the
space plus up to 75 payload octets) — the source does not count the
continuation space against the 75-octet limit, so full continuation
lines are 76 octets, not 75.  For pure-ASCII input containing no
carriage return, unfolding (deleting each CRLF followed by one space)
reconstructs the input exactly; for input with multi-byte characters a
character straddling a 75-byte boundary is dropped by
`errors="ignore"` (see the counterexample), so reconstruction can
fail. -/
theorem C3_fold_amended (line : String) :
    (∀ p ∈ foldParts line, utf8Len p ≤ 76)
    ∧ (∀ p0, (foldParts line).head? = some p0 → utf8Len p0 ≤ 75)
    ∧ (∀ p ∈ (foldParts line).tail, ∃ k, p = String.mk (' ' :: k))
    ∧ ((∀ c ∈ line.data, c.toNat < 128) → '\r' ∉ line.data →
      unfoldIcal (fold_ical_line line) = line) := by
  have hsp : ∀ k : List Char,
      utf8Len (String.mk (' ' :: k)) = 1 + utf8Len (String.mk k) := by
    intro k
    show (utf8Encode (' ' :: k)).length = 1 + (utf8Encode k).length
    rw [utf8Encode_cons]
    have : charUtf8 ' ' = [32] := rfl
    rw [this]
    simp [Nat.add_comm]
  refine ⟨?_, ?_, ?_, ?_⟩
  · intro p hp
    unfold foldParts at hp
    cases hcd : foldChunksDecoded line with
    | nil => rw [hcd] at hp; simp at hp
    | cons k ks =>
      rw [hcd] at hp
      rcases List.mem_cons.mp hp with h1 | h2
      · subst h1
        have := foldChunksDecoded_ulen line k (by rw [hcd]; simp)
        omega
      · obtain ⟨ki, hki, rfl⟩ := List.mem_map.mp h2
        have := foldChunksDecoded_ulen line ki (by rw [hcd]; simp [hki])
        rw [hsp ki]
        omega
  · intro p0 hp0
    unfold foldParts at hp0
    cases hcd : foldChunksDecoded line with
    | nil => rw [hcd] at hp0; simp at hp0
    | cons k ks =>
      rw [hcd] at hp0
      simp only [List.head?_cons, Option.some.injEq] at hp0
      subst hp0
      exact foldChunksDecoded_ulen line k (by rw [hcd]; simp)
  · intro p hp
    unfold foldParts at hp
    cases hcd : foldChunksDecoded line with
    | nil => rw [hcd] at hp; simp at hp
    | cons k ks =>
      rw [hcd] at hp
      simp only [List.tail_cons] at hp
      obtain ⟨ki, _, rfl⟩ := List.mem_map.mp hp
      exact ⟨ki, rfl⟩
  · intro hascii hcr
    have hbytes : utf8Encode line.data = line.data.map Char.toNat :=
      utf8Encode_ascii _ hascii
    have hchunksmap : foldChunks (utf8Encode line.data)
        = (chunksGo 75 line.data.length line.data).map (List.map Char.toNat) := by
      unfold foldChunks
      rw [hbytes, List.length_map, chunksGo_map]
    have hdecmap : foldChunksDecoded line
        = chunksGo 75 line.data.length line.data := by
      unfold foldChunksDecoded
      rw [hchunksmap, List.map_map]
      have hcongr : ∀ k ∈ chunksGo 75 line.data.length line.data,
          (decodeIgnore ∘ List.map Char.toNat) k = id k := by
        intro k hk
        have hka : ∀ c ∈ k, c.toNat < 128 := fun c hc =>
          hascii c (chunksGo_mem_of_mem_chunk 75 _ _ k hk c hc)
        show decodeIgnore (k.map Char.toNat) = k
        unfold decodeIgnore
        rw [List.length_map]
        exact decodeIgnoreGo_ascii k.length k hka le_rfl
      rw [List.map_eq_map_iff.mpr hcongr, List.map_id]
    have hnocr : ∀ k ∈ chunksGo 75 line.data.length line.data,
        ∀ c ∈ k, c ≠ '\r' := by
      intro k hk c hc he
      exact hcr (he ▸ chunksGo_mem_of_mem_chunk 75 _ _ k hk c hc)
    show String.mk (unfoldData (foldJoinData (foldChunksDecoded line))) = line
    rw [hdecmap, unfoldData_foldJoin _ hnocr, chunksGo_join]

/-- Witness for C3 at a concrete ASCII line. -/
theorem C3_fold_witness :
    unfoldIcal (fold_ical_line "SUMMARY:Fest") = "SUMMARY:Fest" :=
  (C3_fold_amended "SUMMARY:Fest").2.2.2 (by decide) (by decide)
